import Mathlib

/-!
# Verification of the DTT pricing-tools populator core

A shallow embedding, in Lean 4, of the field-reconciliation and session
orchestration core of the `dtt-pricing-tools-populator` repository:

* `field_matcher.py` — label normalization (`normalize_field_name`), the
  difflib-based similarity score (`core_string_match`), and the per-field
  best-match selection loops of `find_matching_fields` /
  `find_matching_fields_in_worksheet`;
* `excel_data_populator.py` — `PopulationResult` (with `success_rate`),
  `populate_fields_in_worksheet`, `populate_matched_fields`,
  `populate_matched_fields_xlwings`;
* `rate_card_calculator.py` — `calculate_engineering_rate`,
  `read_standard_cost_rates`, `calculate_engineering_rates`;
* `resource_setup_populator.py` — the block-discovery heuristics and
  `copy_resource_setup_range`;
* `excel_session_manager.py` — `consolidated_data_population`.

Modelling conventions: Python strings are `List Char` (ASCII behaviour of
`str.lower`, `str.strip`, `\s`, `\d`); Python floats are exact rationals `ℚ`
(the numeric claims are about exact formula values, not rounding error of the
binary floats); Python ints are `ℤ` where negative intermediate values matter;
a raised exception is `Except.error`; the Excel automation layer (xlwings /
openpyxl) is modelled by explicit state passed through records of operations
that may either return a value or raise.
-/

namespace DTT

/-! ## Kernel-computable rational arithmetic

Python float arithmetic is modelled by exact rationals.  The `Rat` field
operations of the ambient library are `irreducible`, which blocks the kernel
evaluation used by `decide`; the embedded code therefore builds its rationals
through `mkRat` / `Rat.divInt`, and the bridge lemmas below identify those
forms with the ordinary field operations for use in proofs. -/

/-- The rational value of a Python non-negative integer. -/
def qOfNat (n : ℕ) : ℚ := mkRat (Int.ofNat n) 1

/-- The rational value of a Python integer. -/
def qOfInt (z : ℤ) : ℚ := mkRat z 1

/-- Exact division of rationals (`a / b`, and `0` when `b = 0`). -/
def qDivQ (a b : ℚ) : ℚ := Rat.divInt (a.num * Int.ofNat b.den) (Int.ofNat a.den * b.num)

/-- Exact product of rationals. -/
def qMulQ (a b : ℚ) : ℚ := mkRat (a.num * b.num) (a.den * b.den)

/-- Exact difference of rationals. -/
def qSubQ (a b : ℚ) : ℚ :=
  Rat.divInt (a.num * Int.ofNat b.den - b.num * Int.ofNat a.den) (Int.ofNat (a.den * b.den))

theorem qOfNat_eq (n : ℕ) : qOfNat n = (n : ℚ) := by
  rw [qOfNat, Rat.mkRat_one, Int.ofNat_eq_natCast, Int.cast_natCast]

theorem qOfInt_eq (z : ℤ) : qOfInt z = (z : ℚ) := by
  rw [qOfInt, Rat.mkRat_one]

theorem qDivQ_eq (a b : ℚ) : qDivQ a b = a / b := by
  rw [qDivQ, Rat.div_def']
  simp [Int.ofNat_eq_natCast]

theorem qMulQ_eq (a b : ℚ) : qMulQ a b = a * b := by
  rw [qMulQ, Rat.mul_eq_mkRat]

theorem qSubQ_eq (a b : ℚ) : qSubQ a b = a - b := by
  have hda : (a.den : ℤ) ≠ 0 := Int.ofNat_ne_zero.mpr a.den_nz
  have hdb : (b.den : ℤ) ≠ 0 := Int.ofNat_ne_zero.mpr b.den_nz
  calc Rat.divInt (a.num * Int.ofNat b.den - b.num * Int.ofNat a.den) (Int.ofNat (a.den * b.den))
      = Rat.divInt (a.num * b.den - b.num * a.den) ((a.den : ℤ) * b.den) := by
        simp [Int.ofNat_eq_natCast]
    _ = Rat.divInt a.num a.den - Rat.divInt b.num b.den :=
        (Rat.divInt_sub_divInt _ _ hda hdb).symm
    _ = a - b := by rw [Rat.num_divInt_den, Rat.num_divInt_den]

deriving instance DecidableEq for Except

/-! ## Python string primitives (ASCII model) -/

/-- ASCII model of Python `str.lower` applied to one character. -/
def pyLowerChar (c : Char) : Char :=
  if 'A' ≤ c ∧ c ≤ 'Z' then Char.ofNat (c.toNat + 32) else c

/-- The whitespace characters of Python's default `str.strip` and of `\s`
(ASCII subset): space, tab, newline, carriage return, vertical tab, form feed. -/
def isPySpace (c : Char) : Bool :=
  c == ' ' || c == '\t' || c == '\n' || c == '\r' ||
    c == Char.ofNat 11 || c == Char.ofNat 12

/-- ASCII `\d` of the regexes in `normalize_field_name`. -/
def isAsciiDigit (c : Char) : Bool :=
  '0' ≤ c && c ≤ '9'

/-- Python `str.lstrip()` (default whitespace). -/
def pyStripL (s : List Char) : List Char :=
  s.dropWhile isPySpace

/-- Python `str.rstrip()` (default whitespace). -/
def pyStripR (s : List Char) : List Char :=
  s.rdropWhile isPySpace

/-- Python `str.strip()` (default whitespace). -/
def pyStrip (s : List Char) : List Char :=
  pyStripR (pyStripL s)

/-- Python `str.startswith` on the list model. -/
def pyStartsWith (s p : List Char) : Bool :=
  p.isPrefixOf s

/-- Python `needle in hay` substring containment on the list model. -/
def strContainsSub (hay needle : List Char) : Bool :=
  match hay with
  | [] => needle.isEmpty
  | _ :: t => needle.isPrefixOf hay || strContainsSub t needle

/-- Python `' '.join(parts)`. -/
def joinSpace : List (List Char) → List Char
  | [] => []
  | [s] => s
  | s :: rest => s ++ ' ' :: joinSpace rest

/-! ## `normalize_field_name` (field_matcher.py, lines 129–167) -/

/-- The punctuation class `[:\.\-\(\)\[\]]` stripped from both ends in
`normalize_field_name`. -/
def isPunct (c : Char) : Bool :=
  c == ':' || c == '.' || c == '-' || c == '(' || c == ')' || c == '[' || c == ']'

/-- The class `[\.\)\-\s]` that may follow a leading digit run in
`normalize_field_name`'s `^\d+[\.\)\-\s]*` regex. -/
def isEnumTail (c : Char) : Bool :=
  c == '.' || c == ')' || c == '-' || isPySpace c

/-- `re.sub(r'^\d+[\.\)\-\s]*', '', s)`: when the string starts with a digit,
remove the maximal leading digit run and then the maximal run of `[\.\)\-\s]`
characters; otherwise the regex does not match and the string is unchanged. -/
def dropLeadingEnum (s : List Char) : List Char :=
  match s with
  | [] => []
  | c :: _ =>
    if isAsciiDigit c then (s.dropWhile isAsciiDigit).dropWhile isEnumTail else s

/-- The single-letter enumerator heads of the prefixes `'a.'` … `'j.'` stripped
(at most once) by `normalize_field_name`. -/
def letterEnumChars : List Char :=
  ['a', 'b', 'c', 'd', 'e', 'f', 'g', 'h', 'i', 'j']

/-- The prefix loop of `normalize_field_name`: if the string starts with one of
`'a.'` … `'j.'`, drop those two characters and `strip()`; the loop breaks after
the first (necessarily unique) matching prefix. -/
def stripLetterEnum (s : List Char) : List Char :=
  match s with
  | c :: '.' :: rest => if letterEnumChars.contains c then pyStrip rest else s
  | _ => s

/-- `re.sub(r'\s+', ' ', s)`: replace every maximal whitespace run by a single
space (a whitespace character is dropped while the next character continues the
run, and becomes the single `' '` when the run ends). -/
def collapseWs : List Char → List Char
  | [] => []
  | [c] => if isPySpace c then [' '] else [c]
  | c :: d :: rest =>
    if isPySpace c then
      if isPySpace d then collapseWs (d :: rest)
      else ' ' :: collapseWs (d :: rest)
    else c :: collapseWs (d :: rest)

/-- `normalize_field_name` (field_matcher.py): lower-case and trim, remove
asterisks, strip trailing then leading punctuation runs, strip a leading
numeric enumerator, strip one letter enumerator prefix `'a.'`–`'j.'`, and
collapse whitespace. -/
def normalize_field_name (s : List Char) : List Char :=
  if s.isEmpty then []
  else
    let n1 := pyStrip (s.map pyLowerChar)
    let n2 := n1.filter (fun c => c != '*')
    let n3 := n2.rdropWhile isPunct
    let n4 := n3.dropWhile isPunct
    let n5 := dropLeadingEnum n4
    let n6 := stripLetterEnum n5
    pyStrip (collapseWs n6)

example : normalize_field_name "01. Opportunity ID:".data = "opportunity id".data := by decide
example : normalize_field_name "a.a.b".data = "a.b".data := by decide
example : normalize_field_name "a.b".data = "b".data := by decide
example : normalize_field_name "ab. *".data = "ab.".data := by decide
example : normalize_field_name "ab.".data = "ab".data := by decide

/-! ## difflib `SequenceMatcher` (as used by `core_string_match`)

`core_string_match` scores two normalized strings with
`difflib.SequenceMatcher(None, a, b).ratio()`: the total size of the
matching blocks found by the recursive Ratcliff–Obershelp procedure, scaled
by `2 / (len(a) + len(b))`.  With `isjunk=None` (the program's only call
shape) `self.bjunk` is empty, but the default `autojunk=True` heuristic
purges the *popular* elements of `b` from `b2j` when `len(b) >= 200`
(those occurring more than `len(b) // 100 + 1` times), so the `j2len`
dynamic program of `find_longest_match` only grows runs through non-popular
`b`-characters: its best block is, among all maximal common substrings all
of whose characters are non-popular, the one starting earliest in `a` and,
among those, earliest in `b` (the DP scans end positions in ascending
`(i, j)` order and replaces only on a strictly longer run, which picks the
same block).  The found block is then widened by the two extension loops,
which grow it over directly adjacent matching characters — their
`not isbjunk(...)` guard is vacuous since `bjunk` is empty with
`isjunk=None`, and the subsequent junk-extension loops, whose guard requires
membership in the empty `bjunk`, never fire and are omitted.  The junk-free
layer below (`runLenF` … `matchingSum`) models the matcher when the purged
set is empty, which `autojunk` guarantees whenever `len(b) < 200`; the
`isBPopular`-parameterized layer after it adds the purge and the extension
loops.  Recursions are modelled with a fuel argument that strictly exceeds
the loop/recursion depth. -/

/-- Length of the common run of `a[i:ahi]` and `b[j:bhi]` starting at `(i, j)`,
with explicit fuel (call it with fuel `ahi - i`). -/
def runLenF (a b : List Char) (ahi bhi : ℕ) : ℕ → ℕ → ℕ → ℕ
  | 0, _, _ => 0
  | fuel + 1, i, j =>
    match a.get? i, b.get? j with
    | some x, some y =>
      if i < ahi ∧ j < bhi ∧ x = y then runLenF a b ahi bhi fuel (i + 1) (j + 1) + 1
      else 0
    | _, _ => 0

/-- Length of the common run of `a[i:ahi]` and `b[j:bhi]` starting at `(i, j)`. -/
def runLen (a b : List Char) (ahi bhi i j : ℕ) : ℕ :=
  runLenF a b ahi bhi (ahi - i) i j

/-- The `(i, j)` start candidates of a window, in lexicographic order: the order
in which `find_longest_match` resolves ties (earliest in `a`, then in `b`). -/
def flmCandidates (alo ahi blo bhi : ℕ) : List (ℕ × ℕ) :=
  (List.range' alo (ahi - alo)).flatMap fun i =>
    (List.range' blo (bhi - blo)).map fun j => (i, j)

/-- `SequenceMatcher.find_longest_match` on the windows `a[alo:ahi]`,
`b[blo:bhi]`: the longest common substring, ties resolved to the earliest start
in `a`, then the earliest start in `b`; `(alo, blo, 0)` when the windows share
no character. -/
def findLongestMatch (a b : List Char) (alo ahi blo bhi : ℕ) : ℕ × ℕ × ℕ :=
  (flmCandidates alo ahi blo bhi).foldl
    (fun best ij =>
      let k := runLen a b ahi bhi ij.1 ij.2
      if k > best.2.2 then (ij.1, ij.2, k) else best)
    (alo, blo, 0)

/-- Total size of the matching blocks of `get_matching_blocks` restricted to the
given windows: the longest match, plus recursively the blocks strictly to its
left and strictly to its right. -/
def matchingSum (a b : List Char) : ℕ → ℕ → ℕ → ℕ → ℕ → ℕ
  | 0, _, _, _, _ => 0
  | fuel + 1, alo, ahi, blo, bhi =>
    let r := findLongestMatch a b alo ahi blo bhi
    let i := r.1
    let j := r.2.1
    let k := r.2.2
    if k = 0 then 0
    else
      k + (if alo < i ∧ blo < j then matchingSum a b fuel alo i blo j else 0)
        + (if i + k < ahi ∧ j + k < bhi then matchingSum a b fuel (i + k) ahi (j + k) bhi else 0)

/-- The `autojunk` popularity test of `SequenceMatcher.__chain_b`: with
`autojunk=True` and `len(b) >= 200`, a `b`-element occurring more than
`len(b) // 100 + 1` times is purged from `b2j`. -/
def isBPopular (b : List Char) (c : Char) : Bool :=
  decide (200 ≤ b.length) && decide (b.length / 100 + 1 < b.count c)

/-- Junk-aware run length: like `runLenF`, but a run only grows through
`b`-characters not purged by `junk` (the `j2len` DP consults `b2j`, from
which popular elements were deleted). -/
def runLenJF (junk : Char → Bool) (a b : List Char) (ahi bhi : ℕ) :
    ℕ → ℕ → ℕ → ℕ
  | 0, _, _ => 0
  | fuel + 1, i, j =>
    match a.get? i, b.get? j with
    | some x, some y =>
      if i < ahi ∧ j < bhi ∧ x = y ∧ junk y = false then
        runLenJF junk a b ahi bhi fuel (i + 1) (j + 1) + 1
      else 0
    | _, _ => 0

/-- Junk-aware run length starting at `(i, j)` (fuel `ahi - i`). -/
def runLenJ (junk : Char → Bool) (a b : List Char) (ahi bhi i j : ℕ) : ℕ :=
  runLenJF junk a b ahi bhi (ahi - i) i j

/-- The left extension loop of `find_longest_match`
(`while besti > alo and bestj > blo and not isbjunk(b[bestj-1]) and
a[besti-1] == b[bestj-1]`, the `isbjunk` conjunct vacuous with
`isjunk=None`), with fuel `>= besti`. -/
def extendL (a b : List Char) (alo blo : ℕ) : ℕ → ℕ × ℕ × ℕ → ℕ × ℕ × ℕ
  | 0, st => st
  | fuel + 1, st =>
    if alo < st.1 ∧ blo < st.2.1 then
      match a.get? (st.1 - 1), b.get? (st.2.1 - 1) with
      | some x, some y =>
        if x = y then
          extendL a b alo blo fuel (st.1 - 1, st.2.1 - 1, st.2.2 + 1)
        else st
      | _, _ => st
    else st

/-- The right extension loop of `find_longest_match`
(`while besti+bestsize < ahi and bestj+bestsize < bhi and
not isbjunk(b[bestj+bestsize]) and a[besti+bestsize] == b[bestj+bestsize]`,
the `isbjunk` conjunct vacuous with `isjunk=None`), with fuel `>= ahi`. -/
def extendR (a b : List Char) (ahi bhi : ℕ) : ℕ → ℕ × ℕ × ℕ → ℕ × ℕ × ℕ
  | 0, st => st
  | fuel + 1, st =>
    if st.1 + st.2.2 < ahi ∧ st.2.1 + st.2.2 < bhi then
      match a.get? (st.1 + st.2.2), b.get? (st.2.1 + st.2.2) with
      | some x, some y =>
        if x = y then
          extendR a b ahi bhi fuel (st.1, st.2.1, st.2.2 + 1)
        else st
      | _, _ => st
    else st

/-- `SequenceMatcher.find_longest_match` with `isjunk=None` under the purge
`junk`: the `j2len` DP best (the earliest maximal common substring through
non-purged `b`-characters), widened by the two extension loops (the
junk-extension loops never fire with empty `bjunk` and are omitted). -/
def findLongestMatchAJ (junk : Char → Bool) (a b : List Char)
    (alo ahi blo bhi : ℕ) : ℕ × ℕ × ℕ :=
  let base := (flmCandidates alo ahi blo bhi).foldl
    (fun best ij =>
      let k := runLenJ junk a b ahi bhi ij.1 ij.2
      if k > best.2.2 then (ij.1, ij.2, k) else best)
    (alo, blo, 0)
  extendR a b ahi bhi ahi (extendL a b alo blo base.1 base)

/-- Total size of the matching blocks of `get_matching_blocks` under the
purge `junk` (same recursion as `matchingSum`, with the junk-aware
`find_longest_match`). -/
def matchingSumAJ (junk : Char → Bool) (a b : List Char) :
    ℕ → ℕ → ℕ → ℕ → ℕ → ℕ
  | 0, _, _, _, _ => 0
  | fuel + 1, alo, ahi, blo, bhi =>
    let r := findLongestMatchAJ junk a b alo ahi blo bhi
    let i := r.1
    let j := r.2.1
    let k := r.2.2
    if k = 0 then 0
    else
      k + (if alo < i ∧ blo < j then matchingSumAJ junk a b fuel alo i blo j else 0)
        + (if i + k < ahi ∧ j + k < bhi then
            matchingSumAJ junk a b fuel (i + k) ahi (j + k) bhi else 0)

/-- `difflib.SequenceMatcher(None, a, b).ratio()` with the default
`autojunk=True`: `2 * M / T` where `M` is the total matched size under the
popularity purge of `b` and `T` the total length (`1.0` when both empty). -/
def sequenceMatcherRatioQ (a b : List Char) : ℚ :=
  let total := a.length + b.length
  let m := matchingSumAJ (isBPopular b) a b (total + 1) 0 a.length 0 b.length
  if total = 0 then 1 else mkRat (2 * Int.ofNat m) total

/-! ### The purge is inert below the autojunk threshold

`autojunk` purges nothing when `len(b) < 200`; with an empty purge the
junk-aware run lengths collapse to `runLen`, the DP base of
`findLongestMatchAJ` collapses to `findLongestMatch`, and the two extension
loops cannot move off the brute-force maximum (an adjacent matching pair
would extend some candidate run past the maximum).  Hence the whole
junk-aware matcher agrees with the junk-free layer on windows inside the
strings. -/

theorem isBPopular_of_short (b : List Char) (hb : b.length < 200) :
    ∀ c, isBPopular b c = false := by
  intro c
  have h : ¬ 200 ≤ b.length := by omega
  simp [isBPopular, h]

theorem runLenJF_eq_runLenF (junk : Char → Bool) (hjunk : ∀ c, junk c = false)
    (a b : List Char) (ahi bhi : ℕ) :
    ∀ fuel i j, runLenJF junk a b ahi bhi fuel i j = runLenF a b ahi bhi fuel i j := by
  intro fuel
  induction fuel with
  | zero => intro i j; rfl
  | succ f IH =>
    intro i j
    rw [runLenJF, runLenF]
    rcases hx : a.get? i with - | x
    · rfl
    · rcases hy : b.get? j with - | y
      · rfl
      · simp [hjunk y, IH]

theorem runLenJ_eq_runLen (junk : Char → Bool) (hjunk : ∀ c, junk c = false)
    (a b : List Char) (ahi bhi i j : ℕ) :
    runLenJ junk a b ahi bhi i j = runLen a b ahi bhi i j := by
  rw [runLenJ, runLen, runLenJF_eq_runLenF junk hjunk]

theorem mem_flmCandidates_iff (alo ahi blo bhi : ℕ) (p : ℕ × ℕ) :
    p ∈ flmCandidates alo ahi blo bhi ↔
      alo ≤ p.1 ∧ p.1 < ahi ∧ blo ≤ p.2 ∧ p.2 < bhi := by
  cases p with
  | mk i j =>
    simp only [flmCandidates, List.mem_flatMap, List.mem_map, List.mem_range'_1,
      Prod.mk.injEq]
    constructor
    · rintro ⟨i0, ⟨h1, h2⟩, j0, ⟨h3, h4⟩, rfl, rfl⟩
      exact ⟨by omega, by omega, by omega, by omega⟩
    · rintro ⟨h1, h2, h3, h4⟩
      exact ⟨i, ⟨h1, by omega⟩, j, ⟨h3, by omega⟩, rfl, rfl⟩

theorem runLenF_le (a b : List Char) (ahi bhi : ℕ) :
    ∀ fuel i j, runLenF a b ahi bhi fuel i j ≤ fuel := by
  intro fuel
  induction fuel with
  | zero => intro i j; exact le_refl 0
  | succ f IH =>
    intro i j
    rw [runLenF]
    rcases hx : a.get? i with - | x
    · exact Nat.zero_le _
    · rcases hy : b.get? j with - | y
      · exact Nat.zero_le _
      · show (if i < ahi ∧ j < bhi ∧ x = y then
            runLenF a b ahi bhi f (i + 1) (j + 1) + 1 else 0) ≤ f + 1
        by_cases hc : i < ahi ∧ j < bhi ∧ x = y
        · rw [if_pos hc]
          exact Nat.succ_le_succ (IH _ _)
        · rw [if_neg hc]
          exact Nat.zero_le _

theorem runLenF_stop (a b : List Char) (ahi bhi : ℕ) : ∀ (fuel i j k : ℕ),
    runLenF a b ahi bhi fuel i j = k → k < fuel →
    i + k < ahi → j + k < bhi →
    ∀ (hia : i + k < a.length) (hjb : j + k < b.length),
    a.get ⟨i + k, hia⟩ ≠ b.get ⟨j + k, hjb⟩ := by
  intro fuel
  induction fuel with
  | zero =>
    intro i j k _ hk
    exact absurd hk (Nat.not_lt_zero k)
  | succ f IH =>
    intro i j k hrl hk h1 h2 hia hjb hxy
    rw [runLenF] at hrl
    rcases hgx : a.get? i with - | xi
    · rw [hgx] at hrl
      simp at hrl
      subst hrl
      have hg := List.get?_eq_get (show i < a.length by omega)
      rw [hgx] at hg
      exact Option.noConfusion hg
    · rcases hgy : b.get? j with - | yj
      · rw [hgx, hgy] at hrl
        simp at hrl
        subst hrl
        have hg := List.get?_eq_get (show j < b.length by omega)
        rw [hgy] at hg
        exact Option.noConfusion hg
      · rw [hgx, hgy] at hrl
        simp only [] at hrl
        by_cases hc : i < ahi ∧ j < bhi ∧ xi = yj
        · rw [if_pos hc] at hrl
          have hk2 : runLenF a b ahi bhi f (i + 1) (j + 1) = k - 1 := by omega
          have hstep := IH (i + 1) (j + 1) (k - 1) hk2 (by omega) (by omega) (by omega)
            (show i + 1 + (k - 1) < a.length by omega)
            (show j + 1 + (k - 1) < b.length by omega)
          apply hstep
          have hieq : i + 1 + (k - 1) = i + k := by omega
          have hjeq : j + 1 + (k - 1) = j + k := by omega
          rw [show (⟨i + 1 + (k - 1), by omega⟩ : Fin a.length) = ⟨i + k, hia⟩ from
              Fin.ext hieq,
            show (⟨j + 1 + (k - 1), by omega⟩ : Fin b.length) = ⟨j + k, hjb⟩ from
              Fin.ext hjeq]
          exact hxy
        · rw [if_neg hc] at hrl
          subst hrl
          have hxi : a.get? i = some (a.get ⟨i, by omega⟩) :=
            List.get?_eq_get (by omega)
          have hyj : b.get? j = some (b.get ⟨j, by omega⟩) :=
            List.get?_eq_get (by omega)
          rw [hgx] at hxi
          rw [hgy] at hyj
          have hxi2 : xi = a.get ⟨i, by omega⟩ := Option.some_inj.mp hxi
          have hyj2 : yj = b.get ⟨j, by omega⟩ := Option.some_inj.mp hyj
          apply hc

          refine ⟨by omega, by omega, ?_⟩
          rw [hxi2, hyj2]
          have h01 : (⟨i, by omega⟩ : Fin a.length) = ⟨i + 0, hia⟩ := Fin.ext rfl
          have h02 : (⟨j, by omega⟩ : Fin b.length) = ⟨j + 0, hjb⟩ := Fin.ext rfl
          rw [h01, h02]
          exact hxy

theorem runLen_stop (a b : List Char) (ahi bhi i j : ℕ)
    (h1 : i + runLen a b ahi bhi i j < ahi)
    (h2 : j + runLen a b ahi bhi i j < bhi)
    (hia : i + runLen a b ahi bhi i j < a.length)
    (hjb : j + runLen a b ahi bhi i j < b.length) :
    a.get ⟨i + runLen a b ahi bhi i j, hia⟩ ≠
      b.get ⟨j + runLen a b ahi bhi i j, hjb⟩ := by
  have hle := runLenF_le a b ahi bhi (ahi - i) i j
  rcases Nat.lt_or_ge (runLenF a b ahi bhi (ahi - i) i j) (ahi - i) with hlt | hge
  · exact runLenF_stop a b ahi bhi (ahi - i) i j (runLen a b ahi bhi i j) rfl hlt
      h1 h2 hia hjb
  · exfalso
    have hk : runLen a b ahi bhi i j = ahi - i := le_antisymm hle hge
    omega

theorem runLen_pos (a b : List Char) (ahi bhi i j : ℕ)
    (hi : i < ahi) (hj : j < bhi) (hia : i < a.length) (hjb : j < b.length)
    (hxy : a.get ⟨i, hia⟩ = b.get ⟨j, hjb⟩) :
    0 < runLen a b ahi bhi i j := by
  obtain ⟨f, hf⟩ : ∃ f, ahi - i = f + 1 := ⟨ahi - i - 1, by omega⟩
  rw [runLen, hf, runLenF]
  simp only [List.get?_eq_get hia, List.get?_eq_get hjb]
  rw [if_pos ⟨hi, hj, hxy⟩]
  exact Nat.succ_pos _

theorem runLen_succ_left (a b : List Char) (ahi bhi i j : ℕ)
    (hi0 : 0 < i) (hj0 : 0 < j) (hia : i - 1 < a.length) (hjb : j - 1 < b.length)
    (hiahi : i - 1 < ahi) (hjbhi : j - 1 < bhi) (hile : i ≤ ahi)
    (hxy : a.get ⟨i - 1, hia⟩ = b.get ⟨j - 1, hjb⟩) :
    runLen a b ahi bhi (i - 1) (j - 1) = runLen a b ahi bhi i j + 1 := by
  rw [runLen, runLen]
  have hf : ahi - (i - 1) = (ahi - i) + 1 := by omega
  rw [hf, runLenF]
  simp only [List.get?_eq_get hia, List.get?_eq_get hjb]
  rw [if_pos ⟨hiahi, hjbhi, hxy⟩]
  have hi1 : i - 1 + 1 = i := by omega
  have hj1 : j - 1 + 1 = j := by omega
  rw [hi1, hj1]

theorem foldl_flm_le (a b : List Char) (ahi bhi : ℕ) :
    ∀ (cands : List (ℕ × ℕ)) (best : ℕ × ℕ × ℕ),
    best.2.2 ≤ (cands.foldl (fun best ij =>
        let k := runLen a b ahi bhi ij.1 ij.2
        if k > best.2.2 then (ij.1, ij.2, k) else best) best).2.2 ∧
    ∀ p ∈ cands, runLen a b ahi bhi p.1 p.2 ≤ (cands.foldl (fun best ij =>
        let k := runLen a b ahi bhi ij.1 ij.2
        if k > best.2.2 then (ij.1, ij.2, k) else best) best).2.2 := by
  intro cands
  induction cands with
  | nil =>
    intro best
    exact ⟨le_refl _, by simp⟩
  | cons p t IH =>
    intro best
    simp only [List.foldl_cons]
    by_cases hk : runLen a b ahi bhi p.1 p.2 > best.2.2
    · simp only [if_pos hk]
      obtain ⟨IH1, IH2⟩ := IH (p.1, p.2, runLen a b ahi bhi p.1 p.2)
      refine ⟨le_trans (le_of_lt hk) IH1, ?_⟩
      intro q hq
      rcases List.mem_cons.mp hq with rfl | hq
      · exact IH1
      · exact IH2 q hq
    · simp only [if_neg hk]
      obtain ⟨IH1, IH2⟩ := IH best
      refine ⟨IH1, ?_⟩
      intro q hq
      rcases List.mem_cons.mp hq with rfl | hq
      · exact le_trans (by omega) IH1
      · exact IH2 q hq

theorem foldl_flm_result (a b : List Char) (ahi bhi : ℕ) :
    ∀ (cands : List (ℕ × ℕ)) (best : ℕ × ℕ × ℕ),
    (cands.foldl (fun best ij =>
        let k := runLen a b ahi bhi ij.1 ij.2
        if k > best.2.2 then (ij.1, ij.2, k) else best) best) = best ∨
    (((cands.foldl (fun best ij =>
        let k := runLen a b ahi bhi ij.1 ij.2
        if k > best.2.2 then (ij.1, ij.2, k) else best) best).1,
      (cands.foldl (fun best ij =>
        let k := runLen a b ahi bhi ij.1 ij.2
        if k > best.2.2 then (ij.1, ij.2, k) else best) best).2.1) ∈ cands ∧
      runLen a b ahi bhi
        (cands.foldl (fun best ij =>
          let k := runLen a b ahi bhi ij.1 ij.2
          if k > best.2.2 then (ij.1, ij.2, k) else best) best).1
        (cands.foldl (fun best ij =>
          let k := runLen a b ahi bhi ij.1 ij.2
          if k > best.2.2 then (ij.1, ij.2, k) else best) best).2.1 =
      (cands.foldl (fun best ij =>
        let k := runLen a b ahi bhi ij.1 ij.2
        if k > best.2.2 then (ij.1, ij.2, k) else best) best).2.2) := by
  intro cands
  induction cands with
  | nil =>
    intro best
    exact Or.inl rfl
  | cons p t IH =>
    intro best
    simp only [List.foldl_cons]
    by_cases hk : runLen a b ahi bhi p.1 p.2 > best.2.2
    · simp only [if_pos hk]
      rcases IH (p.1, p.2, runLen a b ahi bhi p.1 p.2) with h | ⟨hm, hr⟩
      · refine Or.inr ⟨?_, ?_⟩
        · rw [h]
          simp
        · rw [h]
      · exact Or.inr ⟨List.mem_cons_of_mem p hm, hr⟩
    · simp only [if_neg hk]
      rcases IH best with h | ⟨hm, hr⟩
      · exact Or.inl h
      · exact Or.inr ⟨List.mem_cons_of_mem p hm, hr⟩

theorem findLongestMatch_facts (a b : List Char) (alo ahi blo bhi : ℕ) :
    (∀ p ∈ flmCandidates alo ahi blo bhi,
      runLen a b ahi bhi p.1 p.2 ≤ (findLongestMatch a b alo ahi blo bhi).2.2) ∧
    (findLongestMatch a b alo ahi blo bhi = (alo, blo, 0) ∨
      (((findLongestMatch a b alo ahi blo bhi).1,
        (findLongestMatch a b alo ahi blo bhi).2.1) ∈
          flmCandidates alo ahi blo bhi ∧
       runLen a b ahi bhi (findLongestMatch a b alo ahi blo bhi).1
         (findLongestMatch a b alo ahi blo bhi).2.1 =
       (findLongestMatch a b alo ahi blo bhi).2.2)) := by
  rw [findLongestMatch]
  exact ⟨(foldl_flm_le a b ahi bhi (flmCandidates alo ahi blo bhi) (alo, blo, 0)).2,
    foldl_flm_result a b ahi bhi (flmCandidates alo ahi blo bhi) (alo, blo, 0)⟩

theorem extendL_flm (a b : List Char) (alo ahi blo bhi : ℕ)
    (hA : ahi ≤ a.length) (hB : bhi ≤ b.length) :
    ∀ fuel, extendL a b alo blo fuel (findLongestMatch a b alo ahi blo bhi) =
      findLongestMatch a b alo ahi blo bhi := by
  obtain ⟨inv1, inv3⟩ := findLongestMatch_facts a b alo ahi blo bhi
  intro fuel
  cases fuel with
  | zero => rfl
  | succ f =>
    rw [extendL]
    by_cases hg : alo < (findLongestMatch a b alo ahi blo bhi).1 ∧
        blo < (findLongestMatch a b alo ahi blo bhi).2.1
    · rcases inv3 with h0 | ⟨hmem, hrl⟩
      · rw [h0] at hg
        simp at hg
      · obtain ⟨h1, h2, h3, h4⟩ := (mem_flmCandidates_iff alo ahi blo bhi _).mp hmem
        rw [if_pos hg]
        have hi1 : (findLongestMatch a b alo ahi blo bhi).1 - 1 < a.length := by omega
        have hj1 : (findLongestMatch a b alo ahi blo bhi).2.1 - 1 < b.length := by omega
        simp only [List.get?_eq_get hi1, List.get?_eq_get hj1]
        by_cases hxy : a.get ⟨(findLongestMatch a b alo ahi blo bhi).1 - 1, hi1⟩ =
            b.get ⟨(findLongestMatch a b alo ahi blo bhi).2.1 - 1, hj1⟩
        · exfalso
          have hsucc := runLen_succ_left a b ahi bhi
            (findLongestMatch a b alo ahi blo bhi).1
            (findLongestMatch a b alo ahi blo bhi).2.1
            (by omega) (by omega) hi1 hj1 (by omega) (by omega) (by omega) hxy
          have hmem2 : ((findLongestMatch a b alo ahi blo bhi).1 - 1,
              (findLongestMatch a b alo ahi blo bhi).2.1 - 1) ∈
              flmCandidates alo ahi blo bhi :=
            (mem_flmCandidates_iff alo ahi blo bhi _).mpr
              ⟨by omega, by omega, by omega, by omega⟩
          have hle := inv1 _ hmem2
          rw [hsucc, hrl] at hle
          omega
        · simp only [List.get_eq_getElem] at hxy
          simp [hxy]
    · rw [if_neg hg]

theorem extendR_flm (a b : List Char) (alo ahi blo bhi : ℕ)
    (hA : ahi ≤ a.length) (hB : bhi ≤ b.length) :
    ∀ fuel, extendR a b ahi bhi fuel (findLongestMatch a b alo ahi blo bhi) =
      findLongestMatch a b alo ahi blo bhi := by
  obtain ⟨inv1, inv3⟩ := findLongestMatch_facts a b alo ahi blo bhi
  intro fuel
  cases fuel with
  | zero => rfl
  | succ f =>
    rw [extendR]
    by_cases hg : (findLongestMatch a b alo ahi blo bhi).1 +
          (findLongestMatch a b alo ahi blo bhi).2.2 < ahi ∧
        (findLongestMatch a b alo ahi blo bhi).2.1 +
          (findLongestMatch a b alo ahi blo bhi).2.2 < bhi
    · rw [if_pos hg]
      have hi1 : (findLongestMatch a b alo ahi blo bhi).1 +
          (findLongestMatch a b alo ahi blo bhi).2.2 < a.length := by omega
      have hj1 : (findLongestMatch a b alo ahi blo bhi).2.1 +
          (findLongestMatch a b alo ahi blo bhi).2.2 < b.length := by omega
      simp only [List.get?_eq_get hi1, List.get?_eq_get hj1]
      by_cases hxy : a.get ⟨(findLongestMatch a b alo ahi blo bhi).1 +
            (findLongestMatch a b alo ahi blo bhi).2.2, hi1⟩ =
          b.get ⟨(findLongestMatch a b alo ahi blo bhi).2.1 +
            (findLongestMatch a b alo ahi blo bhi).2.2, hj1⟩
      · exfalso
        rcases inv3 with h0 | ⟨hmem, hrl⟩
        · -- the fold never improved on `(alo, blo, 0)`, yet `(alo, blo)` matches
          have hg2 : alo < ahi ∧ blo < bhi := by
            have := hg
            rw [h0] at this
            simpa using this
          have hia0 : alo < a.length := by omega
          have hjb0 : blo < b.length := by omega
          have e1 : (⟨(findLongestMatch a b alo ahi blo bhi).1 +
              (findLongestMatch a b alo ahi blo bhi).2.2, hi1⟩ : Fin a.length) =
              ⟨alo, hia0⟩ := Fin.ext (by simp [h0])
          have e2 : (⟨(findLongestMatch a b alo ahi blo bhi).2.1 +
              (findLongestMatch a b alo ahi blo bhi).2.2, hj1⟩ : Fin b.length) =
              ⟨blo, hjb0⟩ := Fin.ext (by simp [h0])
          rw [e1, e2] at hxy
          have hmem0 : ((alo : ℕ), (blo : ℕ)) ∈ flmCandidates alo ahi blo bhi :=
            (mem_flmCandidates_iff alo ahi blo bhi _).mpr
              ⟨le_refl _, hg2.1, le_refl _, hg2.2⟩
          have hle := inv1 _ hmem0
          rw [h0] at hle
          simp at hle
          have hpos := runLen_pos a b ahi bhi alo blo hg2.1 hg2.2 hia0 hjb0 hxy
          omega
        · have hv1 : (findLongestMatch a b alo ahi blo bhi).1 +
              runLen a b ahi bhi (findLongestMatch a b alo ahi blo bhi).1
                (findLongestMatch a b alo ahi blo bhi).2.1 =
              (findLongestMatch a b alo ahi blo bhi).1 +
              (findLongestMatch a b alo ahi blo bhi).2.2 := by rw [hrl]
          have hv2 : (findLongestMatch a b alo ahi blo bhi).2.1 +
              runLen a b ahi bhi (findLongestMatch a b alo ahi blo bhi).1
                (findLongestMatch a b alo ahi blo bhi).2.1 =
              (findLongestMatch a b alo ahi blo bhi).2.1 +
              (findLongestMatch a b alo ahi blo bhi).2.2 := by rw [hrl]
          have hstop := runLen_stop a b ahi bhi
            (findLongestMatch a b alo ahi blo bhi).1
            (findLongestMatch a b alo ahi blo bhi).2.1
            (by omega) (by omega) (by omega) (by omega)
          apply hstop
          rw [show (⟨(findLongestMatch a b alo ahi blo bhi).1 +
              runLen a b ahi bhi (findLongestMatch a b alo ahi blo bhi).1
                (findLongestMatch a b alo ahi blo bhi).2.1, by omega⟩ :
              Fin a.length) = ⟨(findLongestMatch a b alo ahi blo bhi).1 +
              (findLongestMatch a b alo ahi blo bhi).2.2, hi1⟩ from Fin.ext hv1,
            show (⟨(findLongestMatch a b alo ahi blo bhi).2.1 +
              runLen a b ahi bhi (findLongestMatch a b alo ahi blo bhi).1
                (findLongestMatch a b alo ahi blo bhi).2.1, by omega⟩ :
              Fin b.length) = ⟨(findLongestMatch a b alo ahi blo bhi).2.1 +
              (findLongestMatch a b alo ahi blo bhi).2.2, hj1⟩ from Fin.ext hv2]
          exact hxy
      · simp only [List.get_eq_getElem] at hxy
        simp [hxy]
    · rw [if_neg hg]

theorem findLongestMatchAJ_eq (junk : Char → Bool) (a b : List Char)
    (hjunk : ∀ c, junk c = false) (alo ahi blo bhi : ℕ)
    (hA : ahi ≤ a.length) (hB : bhi ≤ b.length) :
    findLongestMatchAJ junk a b alo ahi blo bhi =
      findLongestMatch a b alo ahi blo bhi := by
  have hbase : (flmCandidates alo ahi blo bhi).foldl
      (fun best ij =>
        let k := runLenJ junk a b ahi bhi ij.1 ij.2
        if k > best.2.2 then (ij.1, ij.2, k) else best)
      (alo, blo, 0) = findLongestMatch a b alo ahi blo bhi := by
    rw [findLongestMatch]
    congr 1
    funext best ij
    simp [runLenJ_eq_runLen junk hjunk]
  simp only [findLongestMatchAJ]
  rw [hbase, extendL_flm a b alo ahi blo bhi hA hB,
    extendR_flm a b alo ahi blo bhi hA hB]

theorem matchingSumAJ_eq (junk : Char → Bool) (a b : List Char)
    (hjunk : ∀ c, junk c = false) :
    ∀ fuel alo ahi blo bhi, ahi ≤ a.length → bhi ≤ b.length →
    matchingSumAJ junk a b fuel alo ahi blo bhi =
      matchingSum a b fuel alo ahi blo bhi := by
  intro fuel
  induction fuel with
  | zero => intro alo ahi blo bhi _ _; rfl
  | succ f IH =>
    intro alo ahi blo bhi hA hB
    simp only [matchingSumAJ, matchingSum]
    rw [findLongestMatchAJ_eq junk a b hjunk alo ahi blo bhi hA hB]
    by_cases hk : (findLongestMatch a b alo ahi blo bhi).2.2 = 0
    · simp [hk]
    · rcases (findLongestMatch_facts a b alo ahi blo bhi).2 with h0 | ⟨hmem, -⟩
      · exfalso
        rw [h0] at hk
        exact hk rfl
      · obtain ⟨h1, h2, h3, h4⟩ := (mem_flmCandidates_iff alo ahi blo bhi _).mp hmem
        rw [IH alo (findLongestMatch a b alo ahi blo bhi).1 blo
            (findLongestMatch a b alo ahi blo bhi).2.1 (by omega) (by omega),
          IH ((findLongestMatch a b alo ahi blo bhi).1 +
              (findLongestMatch a b alo ahi blo bhi).2.2) ahi
            ((findLongestMatch a b alo ahi blo bhi).2.1 +
              (findLongestMatch a b alo ahi blo bhi).2.2) bhi hA hB]

set_option maxRecDepth 4000 in
/-- At the threshold, a character filling `b` is popular and purged. -/
example : isBPopular (List.replicate 200 'x') 'x' = true := by decide
example : isBPopular "yx".data 'x' = false := by decide

/-- A purged character cannot seed a matching run: under a purge junking
`'x'`, `'yx'` against `'xx'` finds nothing (the extension loops cannot start
from an empty match on mismatching heads). -/
example : findLongestMatchAJ (fun c => c == 'x') "yx".data "xx".data 0 2 0 2 =
    (0, 0, 0) := by decide

/-- The extension loops do widen a found block over purged characters:
matching `'xy'` against itself under a purge junking `'x'`, the DP finds only
`'y'` and the left extension recovers the full match. -/
example : findLongestMatchAJ (fun c => c == 'x') "xy".data "xy".data 0 2 0 2 =
    (0, 0, 2) := by decide

/-! ## `core_string_match` (field_matcher.py, lines 92–126) -/

/-- `core_string_match`: `0.0` for empty inputs or inputs that normalize to the
empty string, otherwise the `SequenceMatcher` ratio of the two normalized
field names. -/
def core_string_match (source_field target_field : List Char) : ℚ :=
  if source_field.isEmpty || target_field.isEmpty then 0
  else
    let source_normalized := normalize_field_name source_field
    let target_normalized := normalize_field_name target_field
    if source_normalized.isEmpty || target_normalized.isEmpty then 0
    else sequenceMatcherRatioQ source_normalized target_normalized

set_option maxRecDepth 40000 in
example : core_string_match "tide".data "diet".data = mkRat 1 4 := by decide
set_option maxRecDepth 40000 in
example : core_string_match "diet".data "tide".data = mkRat 1 2 := by decide
set_option maxRecDepth 40000 in
example : core_string_match "abc".data "abc".data = 1 := by decide
set_option maxRecDepth 40000 in
example : core_string_match "Client Name".data "Client Name:".data = 1 := by decide


/-! ## Data model (data_models.py) -/

/-- `CellLocation` (data_models.py): a cell of an Excel worksheet with the text
snapshot recorded at scan time. -/
structure CellLocation where
  row : ℤ
  column : ℤ
  cell_reference : List Char
  content : List Char
deriving DecidableEq, Repr

/-- `FieldMatch` (data_models.py): a matched source field with its target
location and confidence. -/
structure FieldMatch where
  source_field : List Char
  target_location : CellLocation
  confidence : ℚ
  source_value : List Char
  match_method : List Char
deriving DecidableEq, Repr

/-! ## Best-match selection (field_matcher.py)

`find_matching_fields` (lines 341–372) and `find_matching_fields_in_worksheet`
(lines 554–582) run the same per-source-field selection loop over the scanned
candidate locations: starting from `best_match = None`, `best_confidence = 0.0`,
a candidate replaces the current best exactly when its confidence is `> best`
and `≥ threshold`.  The loops differ only in how the candidate text is read
(re-read from the sheet vs. the recorded `location.content` snapshot), in the
recorded `match_method` string, and in the (semantically inert) order of the
two conjuncts.  `getText` abstracts the candidate-text read. -/

/-- One iteration of the selection loop of `find_matching_fields_in_worksheet`
(condition written `confidence >= threshold and confidence > best_confidence`). -/
def matchStep (getText : CellLocation → List Char) (thr : ℚ) (sf sv method : List Char)
    (acc : Option FieldMatch × ℚ) (loc : CellLocation) : Option FieldMatch × ℚ :=
  let confidence := core_string_match sf (getText loc)
  if thr ≤ confidence ∧ acc.2 < confidence then
    (some { source_field := sf, target_location := loc, confidence := confidence,
            source_value := sv, match_method := method }, confidence)
  else acc

/-- One iteration of the selection loop of `find_matching_fields`
(condition written `confidence > best_confidence and confidence >= threshold`). -/
def matchStepA (getText : CellLocation → List Char) (thr : ℚ) (sf sv method : List Char)
    (acc : Option FieldMatch × ℚ) (loc : CellLocation) : Option FieldMatch × ℚ :=
  let confidence := core_string_match sf (getText loc)
  if acc.2 < confidence ∧ thr ≤ confidence then
    (some { source_field := sf, target_location := loc, confidence := confidence,
            source_value := sv, match_method := method }, confidence)
  else acc

theorem matchStepA_eq_matchStep (getText thr sf sv method acc loc) :
    matchStepA getText thr sf sv method acc loc = matchStep getText thr sf sv method acc loc := by
  unfold matchStep matchStepA
  rw [if_congr (Iff.intro And.symm And.symm) rfl rfl]

/-- The per-source-field selection of `find_matching_fields_in_worksheet`
(field_matcher.py, lines 554–582): the best match (if any) for one source
field over the scanned candidate list, scanned in order. -/
def matchSourceField (getText : CellLocation → List Char) (thr : ℚ)
    (sf sv method : List Char) (locs : List CellLocation) : Option FieldMatch :=
  (locs.foldl (matchStep getText thr sf sv method) (none, 0)).1

/-- The matching loop of `find_matching_fields_in_worksheet` over the scanned
candidate locations: one best match per source field, absent fields omitted.
Candidate text is the `location.content` snapshot; `match_method` is
`"core_string_openpyxl"`. -/
def find_matching_fields_in_worksheet_over (source_fields : List (List Char × List Char))
    (locs : List CellLocation) (threshold : ℚ) : List FieldMatch :=
  source_fields.filterMap fun p =>
    matchSourceField (fun loc => loc.content) threshold p.1 p.2 "core_string_openpyxl".data locs

/-- The matching loop of `find_matching_fields` (field_matcher.py, lines
341–372) over the scanned candidate locations: `getText loc` models
`str(target_sheet.cell(row, col).value).strip()`; `match_method` is
`"sequence_match"`. -/
def find_matching_fields_over (getText : CellLocation → List Char)
    (source_fields : List (List Char × List Char))
    (locs : List CellLocation) (threshold : ℚ) : List FieldMatch :=
  source_fields.filterMap fun p =>
    (locs.foldl (matchStepA getText threshold p.1 p.2 "sequence_match".data) (none, 0)).1

/-! ### Characterization of the selection loop -/

/-- The invariant carried by the selection fold over a processed prefix `P`:
either nothing qualified yet (every score is below the threshold), or the state
holds the first candidate attaining the maximum score, which is at least the
threshold. -/
def ScanInv (score : CellLocation → ℚ) (thr : ℚ) (sf sv method : List Char)
    (P : List CellLocation) (st : Option FieldMatch × ℚ) : Prop :=
  (st = (none, 0) ∧ ∀ loc ∈ P, score loc < thr) ∨
  (∃ i, ∃ h : i < P.length,
    st = (some { source_field := sf, target_location := P.get ⟨i, h⟩,
                 confidence := score (P.get ⟨i, h⟩), source_value := sv,
                 match_method := method }, score (P.get ⟨i, h⟩)) ∧
    thr ≤ score (P.get ⟨i, h⟩) ∧
    (∀ j, ∀ hj : j < P.length, score (P.get ⟨j, hj⟩) ≤ score (P.get ⟨i, h⟩)) ∧
    (∀ j, ∀ hj : j < P.length, j < i → score (P.get ⟨j, hj⟩) < score (P.get ⟨i, h⟩)))

theorem foldl_matchStep_inv (getText : CellLocation → List Char) (thr : ℚ)
    (sf sv method : List Char) (hthr : 0 < thr) (locs : List CellLocation) :
    ScanInv (fun loc => core_string_match sf (getText loc)) thr sf sv method locs
      (locs.foldl (matchStep getText thr sf sv method) (none, 0)) := by
  set score := fun loc => core_string_match sf (getText loc) with hscore
  induction locs using List.reverseRecOn with
  | nil => exact Or.inl ⟨rfl, by simp⟩
  | append_singleton P x IH =>
    rw [List.foldl_append]
    set st := P.foldl (matchStep getText thr sf sv method) (none, 0) with hst
    have hlenx : P.length < (P ++ [x]).length := by simp
    have hgetP : ∀ j (hj : j < P.length),
        (P ++ [x]).get ⟨j, by simp; omega⟩ = P.get ⟨j, hj⟩ := by
      intro j hj
      exact List.get_append j hj
    have hgetx : ∀ hj : P.length < (P ++ [x]).length,
        (P ++ [x]).get ⟨P.length, hj⟩ = x := by
      intro hj
      simp [List.get_eq_getElem]
    simp only [List.foldl_cons, List.foldl_nil]
    by_cases hcond : thr ≤ score x ∧ st.2 < score x
    · have hstep : matchStep getText thr sf sv method st x =
          (some { source_field := sf, target_location := x, confidence := score x,
                  source_value := sv, match_method := method }, score x) := by
        rw [matchStep, if_pos hcond]
      rw [hstep]
      refine Or.inr ⟨P.length, hlenx, ?_, ?_, ?_, ?_⟩
      · rw [hgetx hlenx]
      · rw [hgetx hlenx]; exact hcond.1
      · intro j hj
        rcases Nat.lt_or_ge j P.length with hjP | hjP
        · rw [hgetx hlenx, show ((P ++ [x]).get ⟨j, hj⟩) = P.get ⟨j, hjP⟩ from hgetP j hjP]
          rcases IH with ⟨hnone, hall⟩ | ⟨i, hi, hsome, hthr2, hle, _⟩
          · exact le_of_lt (lt_of_lt_of_le (hall _ (List.get_mem P j hjP)) hcond.1)
          · have h2 : st.2 = score (P.get ⟨i, hi⟩) := by rw [hsome]
            exact le_of_lt (lt_of_le_of_lt (h2 ▸ hle j hjP) hcond.2)
        · have hjeq : j = P.length := by
            have := hj; simp at this; omega
          subst hjeq
          simp only [hgetx hlenx, hgetx hj, le_refl]
      · intro j hj hjlt
        rw [hgetx hlenx, show ((P ++ [x]).get ⟨j, hj⟩) = P.get ⟨j, hjlt⟩ from hgetP j hjlt]
        rcases IH with ⟨hnone, hall⟩ | ⟨i, hi, hsome, hthr2, hle, _⟩
        · exact lt_of_lt_of_le (hall _ (List.get_mem P j hjlt)) hcond.1
        · have h2 : st.2 = score (P.get ⟨i, hi⟩) := by rw [hsome]
          exact lt_of_le_of_lt (h2 ▸ hle j hjlt) hcond.2
    · have hstep : matchStep getText thr sf sv method st x = st := by
        rw [matchStep, if_neg hcond]
      rw [hstep]
      rcases IH with ⟨hnone, hall⟩ | ⟨i, hi, hsome, hthr2, hle, hlt⟩
      · refine Or.inl ⟨hnone, ?_⟩
        intro loc hloc
        rcases List.mem_append.mp hloc with h | h
        · exact hall loc h
        · have hx : loc = x := by simpa using h
          subst hx
          by_contra hge
          push_neg at hge
          have h2 : st.2 = 0 := by rw [hnone]
          exact hcond ⟨hge, by rw [h2]; exact lt_of_lt_of_le hthr hge⟩
      · have hiP : i < (P ++ [x]).length := by simp; omega
        refine Or.inr ⟨i, hiP, ?_, ?_, ?_, ?_⟩
        · rw [show ((P ++ [x]).get ⟨i, hiP⟩) = P.get ⟨i, hi⟩ from hgetP i hi]
          exact hsome
        · rw [show ((P ++ [x]).get ⟨i, hiP⟩) = P.get ⟨i, hi⟩ from hgetP i hi]
          exact hthr2
        · intro j hj
          rw [show ((P ++ [x]).get ⟨i, hiP⟩) = P.get ⟨i, hi⟩ from hgetP i hi]
          rcases Nat.lt_or_ge j P.length with hjP | hjP
          · rw [show ((P ++ [x]).get ⟨j, hj⟩) = P.get ⟨j, hjP⟩ from hgetP j hjP]
            exact hle j hjP
          · have hjeq : j = P.length := by
              have := hj; simp at this; omega
            subst hjeq
            rw [hgetx hj]
            have h2 : st.2 = score (P.get ⟨i, hi⟩) := by rw [hsome]
            by_contra hgt
            push_neg at hgt
            have hxthr : thr ≤ score x := le_of_lt (lt_of_le_of_lt hthr2 hgt)
            exact hcond ⟨hxthr, by rw [h2]; exact hgt⟩
        · intro j hj hjlt
          have hjP : j < P.length := lt_trans hjlt hi
          rw [show ((P ++ [x]).get ⟨i, hiP⟩) = P.get ⟨i, hi⟩ from hgetP i hi,
              show ((P ++ [x]).get ⟨j, hj⟩) = P.get ⟨j, hjP⟩ from hgetP j hjP]
          exact hlt j hjP hjlt

/-- C1 (amended): for every call to the matcher selection loop
(`find_matching_fields` / `find_matching_fields_in_worksheet`) with source
fields, a candidate list in scan order, and a *positive* threshold, the match
selected for a source field is the first candidate in scan order attaining the
maximum similarity score among candidates scoring at least the threshold: a
candidate scoring exactly the threshold is accepted, one scoring below it is
rejected, and on ties the earlier-scanned candidate is kept; no match is
produced iff every candidate scores below the threshold.  (With a zero or
negative threshold the claim fails, because the best-score tracker starts at
`0.0` and a replacement must be strictly greater than it — see the
counterexample.)  Both matcher entry points are the per-source-field selection
mapped over the source fields. -/
theorem matcher_selects_first_max_above_threshold
    (getText : CellLocation → List Char) (thr : ℚ) (sf sv method : List Char)
    (locs : List CellLocation) (source_fields : List (List Char × List Char))
    (hthr : 0 < thr) :
    (matchSourceField getText thr sf sv method locs = none ↔
      ∀ loc ∈ locs, core_string_match sf (getText loc) < thr) ∧
    (∀ m, matchSourceField getText thr sf sv method locs = some m →
      ∃ i, ∃ h : i < locs.length,
        m = { source_field := sf, target_location := locs.get ⟨i, h⟩,
              confidence := core_string_match sf (getText (locs.get ⟨i, h⟩)),
              source_value := sv, match_method := method } ∧
        thr ≤ m.confidence ∧
        (∀ j, ∀ hj : j < locs.length,
          core_string_match sf (getText (locs.get ⟨j, hj⟩)) ≤ m.confidence) ∧
        (∀ j, ∀ hj : j < locs.length, j < i →
          core_string_match sf (getText (locs.get ⟨j, hj⟩)) < m.confidence)) ∧
    find_matching_fields_in_worksheet_over source_fields locs thr =
      source_fields.filterMap (fun p =>
        matchSourceField (fun loc => loc.content) thr p.1 p.2 "core_string_openpyxl".data locs) ∧
    find_matching_fields_over getText source_fields locs thr =
      source_fields.filterMap (fun p =>
        matchSourceField getText thr p.1 p.2 "sequence_match".data locs) := by
  have inv := foldl_matchStep_inv getText thr sf sv method hthr locs
  refine ⟨?_, ?_, rfl, ?_⟩
  · constructor
    · intro hnone
      rcases inv with ⟨_, hall⟩ | ⟨i, hi, hsome, _, _, _⟩
      · exact hall
      · exfalso
        rw [matchSourceField, hsome] at hnone
        exact Option.noConfusion hnone
    · intro hall
      rcases inv with ⟨hst, _⟩ | ⟨i, hi, hsome, hthr2, _, _⟩
      · rw [matchSourceField, hst]
      · exfalso
        exact absurd (hall _ (List.get_mem locs i hi)) (not_lt.mpr hthr2)
  · intro m hm
    rcases inv with ⟨hst, _⟩ | ⟨i, hi, hsome, hthr2, hle, hlt⟩
    · exfalso
      rw [matchSourceField, hst] at hm
      exact Option.noConfusion hm
    · refine ⟨i, hi, ?_, ?_, ?_, ?_⟩
      · rw [matchSourceField, hsome] at hm
        exact (Option.some_inj.mp hm).symm
      · rw [matchSourceField, hsome] at hm
        rw [← Option.some_inj.mp hm]
        exact hthr2
      · intro j hj
        rw [matchSourceField, hsome] at hm
        rw [← Option.some_inj.mp hm]
        exact hle j hj
      · intro j hj hji
        rw [matchSourceField, hsome] at hm
        rw [← Option.some_inj.mp hm]
        exact hlt j hj hji
  · rw [find_matching_fields_over]
    apply List.filterMap_congr
    intro p _
    rw [matchSourceField]
    have hstep : matchStepA getText thr p.1 p.2 "sequence_match".data =
        matchStep getText thr p.1 p.2 "sequence_match".data := by
      funext acc loc
      exact matchStepA_eq_matchStep getText thr p.1 p.2 "sequence_match".data acc loc
    rw [hstep]

set_option maxRecDepth 40000 in
/-- C1 counterexample to the claim as stated (over all thresholds): with
threshold `0.0` and a single candidate scoring exactly `0.0` (no character in
common after normalization), the candidate's score is `≥ threshold`, so the
claim requires it to be selected as the first maximum among qualifying
candidates, but the loop selects nothing (`0.0 > best_confidence = 0.0` fails). -/
theorem matcher_zero_threshold_counterexample :
    matchSourceField (fun loc => loc.content) 0 "abc".data "v".data "m".data
      [⟨1, 1, "A1".data, "xyz".data⟩] = none ∧
    (0 : ℚ) ≤ core_string_match "abc".data "xyz".data := by
  constructor
  · decide
  · decide

set_option maxRecDepth 40000 in
/-- Witness for C1: the amended theorem applied at a concrete call — threshold
`0.65`, source field `"client name"`, one candidate `"Client Name:"` (which
normalizes to an exact match, score `1`), so a match is produced. -/
theorem matcher_selects_first_max_above_threshold_witness :
    matchSourceField (fun loc => loc.content) (mkRat 13 20) "client name".data
      "Acme Corp".data "core_string_openpyxl".data
      [⟨16, 5, "E16".data, "Client Name:".data⟩] ≠ none := by
  have h := (matcher_selects_first_max_above_threshold (fun loc => loc.content)
      (mkRat 13 20) "client name".data "Acme Corp".data "core_string_openpyxl".data
      [⟨16, 5, "E16".data, "Client Name:".data⟩] [] (by decide)).1
  intro hnone
  have hall := h.mp hnone
  have hlt := hall ⟨16, 5, "E16".data, "Client Name:".data⟩ (by simp)
  revert hlt
  decide

/-! ### Symmetry properties of the similarity score -/

theorem runLen_eq_zero_iff (a b : List Char) (ahi bhi i j : ℕ)
    (hi : i < ahi) (hj : j < bhi) (hia : i < a.length) (hjb : j < b.length) :
    runLen a b ahi bhi i j = 0 ↔ a.get ⟨i, hia⟩ ≠ b.get ⟨j, hjb⟩ := by
  obtain ⟨f, hf⟩ : ∃ f, ahi - i = f + 1 := ⟨ahi - i - 1, by omega⟩
  rw [runLen, hf]
  simp only [runLenF, List.get?_eq_get hia, List.get?_eq_get hjb]
  by_cases hxy : a.get ⟨i, hia⟩ = b.get ⟨j, hjb⟩
  · simp [hxy, hi, hj]
  · simp [hxy, hi, hj]

theorem foldl_flm_zero (a b : List Char) (ahi bhi : ℕ) (cands : List (ℕ × ℕ))
    (best : ℕ × ℕ × ℕ) :
    ((cands.foldl (fun best ij =>
        let k := runLen a b ahi bhi ij.1 ij.2
        if k > best.2.2 then (ij.1, ij.2, k) else best) best).2.2 = 0) ↔
    (best.2.2 = 0 ∧ ∀ p ∈ cands, runLen a b ahi bhi p.1 p.2 = 0) := by
  induction cands generalizing best with
  | nil => simp
  | cons p t IH =>
    simp only [List.foldl_cons]
    rw [IH]
    by_cases hk : runLen a b ahi bhi p.1 p.2 > best.2.2
    · simp only [if_pos hk]
      constructor
      · rintro ⟨h0, -⟩
        exact absurd h0 (by omega)
      · rintro ⟨hb, hall⟩
        have := hall p (List.mem_cons_self p t)
        omega
    · simp only [if_neg hk]
      constructor
      · rintro ⟨hb, hall⟩
        refine ⟨hb, ?_⟩
        intro q hq
        rcases List.mem_cons.mp hq with hq | hq
        · subst hq; omega
        · exact hall q hq
      · rintro ⟨hb, hall⟩
        exact ⟨hb, fun q hq => hall q (List.mem_cons_of_mem p hq)⟩

theorem mem_flmCandidates (la lb : ℕ) (p : ℕ × ℕ) :
    p ∈ flmCandidates 0 la 0 lb ↔ p.1 < la ∧ p.2 < lb := by
  cases p with
  | mk i j =>
    simp only [flmCandidates, List.mem_flatMap, List.mem_map, List.mem_range'_1,
      Prod.mk.injEq]
    constructor
    · rintro ⟨i0, ⟨-, hi⟩, j0, ⟨-, hj⟩, rfl, rfl⟩
      exact ⟨by omega, by omega⟩
    · rintro ⟨hi, hj⟩
      exact ⟨i, ⟨by omega, by omega⟩, j, ⟨by omega, by omega⟩, rfl, rfl⟩

/-- The longest-match size over the whole strings is `0` iff the strings share
no character. -/
theorem flm_size_zero_iff (a b : List Char) :
    (findLongestMatch a b 0 a.length 0 b.length).2.2 = 0 ↔
      ∀ x ∈ a, x ∉ b := by
  rw [findLongestMatch, foldl_flm_zero]
  constructor
  · rintro ⟨-, hall⟩
    intro x hxa hxb
    obtain ⟨i, rfl⟩ := List.mem_iff_get.mp hxa
    obtain ⟨j, hxy⟩ := List.mem_iff_get.mp hxb
    have h0 := hall (i.1, j.1) ((mem_flmCandidates a.length b.length (i.1, j.1)).mpr
      ⟨i.2, j.2⟩)
    rw [runLen_eq_zero_iff a b a.length b.length i.1 j.1 i.2 j.2 i.2 j.2] at h0
    exact h0 hxy.symm
  · intro hnc
    refine ⟨rfl, ?_⟩
    intro p hp
    obtain ⟨hpa, hpb⟩ := (mem_flmCandidates a.length b.length p).mp hp
    rw [runLen_eq_zero_iff a b a.length b.length p.1 p.2 hpa hpb hpa hpb]
    intro heq
    exact hnc (a.get ⟨p.1, hpa⟩) (List.get_mem a p.1 hpa) (heq ▸ List.get_mem b p.2 hpb)

/-- The total matching size is `0` iff the top-level longest match is empty
(the recursion only starts from a nonempty block). -/
theorem matchingSum_zero_iff (a b : List Char) (fuel : ℕ) (alo ahi blo bhi : ℕ) :
    matchingSum a b (fuel + 1) alo ahi blo bhi = 0 ↔
      (findLongestMatch a b alo ahi blo bhi).2.2 = 0 := by
  rw [matchingSum]
  by_cases hk : (findLongestMatch a b alo ahi blo bhi).2.2 = 0
  · simp [hk]
  · simp only [if_neg hk]
    constructor
    · intro h
      exact absurd h (by omega)
    · intro h
      exact absurd h hk

/-- The ratio is `0` iff the two strings share no character, for strings that
are not both empty and a `b` below the autojunk threshold (above it the purge
can suppress matches of shared characters, see the `isBPopular` examples). -/
theorem sequenceMatcherRatioQ_zero_iff (a b : List Char)
    (h : a.length + b.length ≠ 0) (hb : b.length < 200) :
    sequenceMatcherRatioQ a b = 0 ↔ ∀ x ∈ a, x ∉ b := by
  have hms : matchingSumAJ (isBPopular b) a b (a.length + b.length + 1)
      0 a.length 0 b.length =
      matchingSum a b (a.length + b.length + 1) 0 a.length 0 b.length :=
    matchingSumAJ_eq (isBPopular b) a b (isBPopular_of_short b hb) _
      0 a.length 0 b.length (le_refl _) (le_refl _)
  show (if a.length + b.length = 0 then 1
      else mkRat (2 * Int.ofNat (matchingSumAJ (isBPopular b) a b
        (a.length + b.length + 1) 0 a.length 0 b.length)) (a.length + b.length))
      = 0 ↔ _
  rw [hms, if_neg h, Rat.mkRat_eq_zero h]
  constructor
  · intro h2
    rw [Int.ofNat_eq_natCast] at h2
    have hm : matchingSum a b (a.length + b.length + 1) 0 a.length 0 b.length = 0 := by
      omega
    exact (flm_size_zero_iff a b).mp
      ((matchingSum_zero_iff a b (a.length + b.length) 0 a.length 0 b.length).mp hm)
  · intro hnc
    have hm : matchingSum a b (a.length + b.length + 1) 0 a.length 0 b.length = 0 :=
      (matchingSum_zero_iff a b (a.length + b.length) 0 a.length 0 b.length).mpr
        ((flm_size_zero_iff a b).mpr hnc)
    simp [hm]

/-- `core_string_match` is `0` exactly when an input is empty, an input
normalizes to the empty string, or the two normalized strings share no
character — provided the normalized target stays below the autojunk
threshold. -/
theorem core_string_match_eq_zero_iff (a b : List Char)
    (hb : (normalize_field_name b).length < 200) :
    core_string_match a b = 0 ↔
      (a = [] ∨ b = [] ∨ normalize_field_name a = [] ∨ normalize_field_name b = [] ∨
        ∀ x ∈ normalize_field_name a, x ∉ normalize_field_name b) := by
  show (if (a.isEmpty || b.isEmpty) = true then 0
      else if ((normalize_field_name a).isEmpty || (normalize_field_name b).isEmpty) = true
        then 0
      else sequenceMatcherRatioQ (normalize_field_name a) (normalize_field_name b))
      = 0 ↔ _
  by_cases h1 : (a.isEmpty || b.isEmpty) = true
  · rw [if_pos h1]
    simp only [Bool.or_eq_true, List.isEmpty_iff] at h1
    simp only [eq_self_iff_true, true_iff]
    tauto
  · rw [if_neg h1]
    simp only [Bool.or_eq_true, List.isEmpty_iff] at h1
    push_neg at h1
    by_cases h2 : ((normalize_field_name a).isEmpty || (normalize_field_name b).isEmpty) = true
    · rw [if_pos h2]
      simp only [Bool.or_eq_true, List.isEmpty_iff] at h2
      simp only [eq_self_iff_true, true_iff]
      tauto
    · rw [if_neg h2]
      simp only [Bool.or_eq_true, List.isEmpty_iff] at h2
      push_neg at h2
      have hlen : (normalize_field_name a).length + (normalize_field_name b).length ≠ 0 := by
        have ha : (normalize_field_name a).length ≠ 0 :=
          fun h => h2.1 (List.length_eq_zero.mp h)
        omega
      rw [sequenceMatcherRatioQ_zero_iff _ _ hlen hb]
      constructor
      · intro h
        exact Or.inr (Or.inr (Or.inr (Or.inr h)))
      · intro h
        rcases h with h | h | h | h | h
        · exact absurd h h1.1
        · exact absurd h h1.2
        · exact absurd h h2.1
        · exact absurd h h2.2
        · exact h

/-! Every step of `normalize_field_name` keeps the string from growing, so
the normalized forms inherit the `< 200` bound from the raw inputs. -/

theorem pyStrip_length_le (s : List Char) : (pyStrip s).length ≤ s.length :=
  le_trans (List.rdropWhile_prefix isPySpace (pyStripL s)).sublist.length_le
    (List.dropWhile_suffix isPySpace).sublist.length_le

theorem collapseWs_length_le (s : List Char) :
    (collapseWs s).length ≤ s.length := by
  induction s with
  | nil => exact le_refl 0
  | cons c t IH =>
    cases t with
    | nil =>
      rw [collapseWs]
      split <;> simp
    | cons d r =>
      rw [collapseWs]
      by_cases hc : isPySpace c = true
      · rw [if_pos hc]
        by_cases hd : isPySpace d = true
        · rw [if_pos hd]
          exact le_trans IH (by simp)
        · rw [if_neg hd]
          simp only [List.length_cons]
          exact Nat.succ_le_succ IH
      · rw [if_neg hc]
        simp only [List.length_cons]
        exact Nat.succ_le_succ IH

theorem stripLetterEnum_length_le (s : List Char) :
    (stripLetterEnum s).length ≤ s.length := by
  rw [stripLetterEnum.eq_def]
  split
  · split
    · exact le_trans (pyStrip_length_le _)
        (by simp only [List.length_cons]; omega)
    · exact le_refl _
  · exact le_refl _

theorem dropLeadingEnum_length_le (s : List Char) :
    (dropLeadingEnum s).length ≤ s.length := by
  rw [dropLeadingEnum.eq_def]
  split
  · exact le_refl _
  · split
    · exact le_trans (List.dropWhile_suffix isEnumTail).sublist.length_le
        (List.dropWhile_suffix isAsciiDigit).sublist.length_le
    · exact le_refl _

theorem normalize_field_name_length_le (x : List Char) :
    (normalize_field_name x).length ≤ x.length := by
  by_cases hx : x.isEmpty = true
  · rw [normalize_field_name, if_pos hx]
    simp
  · simp only [normalize_field_name]
    rw [if_neg hx]
    refine le_trans (pyStrip_length_le _) (le_trans (collapseWs_length_le _) ?_)
    refine le_trans (stripLetterEnum_length_le _) ?_
    refine le_trans (dropLeadingEnum_length_le _) ?_
    refine le_trans (List.dropWhile_suffix isPunct).sublist.length_le ?_
    refine le_trans (List.rdropWhile_prefix isPunct _).sublist.length_le ?_
    refine le_trans (List.length_filter_le _ _) ?_
    refine le_trans (pyStrip_length_le _) ?_
    rw [List.length_map]

/-- C9 (amended): the `SequenceMatcher` ratio used by `core_string_match` is
*not* symmetric in general (see the counterexample on `'tide'`/`'diet'`).
What is symmetric, for fields below difflib's autojunk threshold of `200`
characters, is the zero/nonzero distinction: `core_string_match(a, b)` is `0`
exactly when `core_string_match(b, a)` is `0` — an empty input, an input
normalizing to the empty string, or no character shared by the two normalized
strings.  At or above the threshold even this fails, because the default
`autojunk` purge applies to the second argument only (e.g. `'yx'` scores `0`
against `'x' * 200`, while the swapped call scores `2/202`). -/
theorem core_string_match_zero_iff_symm (a b : List Char)
    (ha : a.length < 200) (hb : b.length < 200) :
    core_string_match a b = 0 ↔ core_string_match b a = 0 := by
  have hna : (normalize_field_name a).length < 200 :=
    lt_of_le_of_lt (normalize_field_name_length_le a) ha
  have hnb : (normalize_field_name b).length < 200 :=
    lt_of_le_of_lt (normalize_field_name_length_le b) hb
  rw [core_string_match_eq_zero_iff a b hnb, core_string_match_eq_zero_iff b a hna]
  have swap : ∀ {u v : List Char}, (∀ x ∈ u, x ∉ v) → ∀ x ∈ v, x ∉ u :=
    fun h x hxv hxu => h x hxu hxv
  constructor
  · intro h
    rcases h with h | h | h | h | h
    · exact Or.inr (Or.inl h)
    · exact Or.inl h
    · exact Or.inr (Or.inr (Or.inr (Or.inl h)))
    · exact Or.inr (Or.inr (Or.inl h))
    · exact Or.inr (Or.inr (Or.inr (Or.inr (swap h))))
  · intro h
    rcases h with h | h | h | h | h
    · exact Or.inr (Or.inl h)
    · exact Or.inl h
    · exact Or.inr (Or.inr (Or.inr (Or.inl h)))
    · exact Or.inr (Or.inr (Or.inl h))
    · exact Or.inr (Or.inr (Or.inr (Or.inr (swap h))))

set_option maxRecDepth 100000 in
/-- C9 counterexample: the similarity ratio is not symmetric.  After (identity)
normalization, `SequenceMatcher` on `('tide', 'diet')` greedily picks the
block `'t'` (earliest in `a`), leaving nothing else to match (ratio `0.25`),
while on `('diet', 'tide')` it picks `'d'` and then also matches `'e'` in the
right remainder (ratio `0.5`). -/
theorem core_string_match_not_symmetric :
    core_string_match "tide".data "diet".data = mkRat 1 4 ∧
    core_string_match "diet".data "tide".data = mkRat 1 2 ∧
    core_string_match "tide".data "diet".data ≠ core_string_match "diet".data "tide".data := by
  refine ⟨by decide, by decide, by decide⟩

set_option maxRecDepth 40000 in
/-- Witness for C9: the amended theorem applied at two concrete fields below
the autojunk threshold. -/
theorem core_string_match_zero_iff_symm_witness :
    ("abc".data.length < 200 ∧ "xyz".data.length < 200) ∧
    (core_string_match "abc".data "xyz".data = 0 ↔
      core_string_match "xyz".data "abc".data = 0) :=
  ⟨⟨by decide, by decide⟩,
   core_string_match_zero_iff_symm "abc".data "xyz".data (by decide) (by decide)⟩

/-! ## Rate calculator (rate_card_calculator.py)

`calculate_engineering_rate` (lines 39–74): validate `cost > 0` and
`0 ≤ margin < 1`, then return `round(cost / (1 - margin))`.  Python floats are
modelled by exact rationals; Python `round` is round-half-to-even. -/

/-- Python 3 `round` on an exact rational: the nearest integer, halves to the
even neighbour. -/
def pyRound (q : ℚ) : ℤ :=
  let d : ℤ := Int.ofNat q.den
  let f : ℤ := Int.fdiv q.num d
  let rem := q.num - f * d
  if 2 * rem < d then f
  else if d < 2 * rem then f + 1
  else if f % 2 = 0 then f else f + 1

/-- `calculate_engineering_rate` (rate_card_calculator.py): raises `ValueError`
for non-positive cost or a margin outside `[0, 1)`, otherwise returns
`round(cost / (1 - margin))`.  (The `isinstance` checks are vacuous in the
typed model; the interpolated values of the error messages are omitted.) -/
def calculate_engineering_rate (standard_cost_rate client_margin_decimal : ℚ) :
    Except String ℤ :=
  if standard_cost_rate ≤ 0 then
    .error "ValueError: Standard cost rate must be a positive number"
  else if client_margin_decimal < 0 ∨ 1 ≤ client_margin_decimal then
    .error "ValueError: Client margin must be between 0 and 1 (exclusive)"
  else
    let denominator := qSubQ 1 client_margin_decimal
    if denominator ≤ 0 then
      .error "ValueError: Invalid margin results in zero or negative denominator"
    else
      .ok (pyRound (qDivQ standard_cost_rate denominator))

example : calculate_engineering_rate 100 (mkRat 9 20) = .ok 182 := by decide
example : calculate_engineering_rate 120 (mkRat 1 2) = .ok 240 := by decide

/-- `pyRound` returns a nearest integer: it never differs from its argument by
more than one half. -/
theorem pyRound_nearest (q : ℚ) : |(pyRound q : ℚ) - q| ≤ 1 / 2 := by
  rw [pyRound]
  have hd0 : (0 : ℤ) < Int.ofNat q.den := by
    rw [Int.ofNat_eq_natCast]
    exact_mod_cast q.pos
  set d : ℤ := Int.ofNat q.den with hd
  set f : ℤ := Int.fdiv q.num d with hf
  set rem : ℤ := q.num - f * d with hrem
  have hfm : rem = Int.fmod q.num d := by
    rw [hrem, Int.fmod_def, hf]
    ring
  have hrem0 : 0 ≤ rem := by
    rw [hfm]
    exact Int.fmod_nonneg' q.num hd0
  have hremd : rem < d := by
    rw [hfm]
    exact Int.fmod_lt_of_pos q.num hd0
  have hdq : (0 : ℚ) < (d : ℚ) := by exact_mod_cast hd0
  have hq : q = ((q.num : ℚ)) / ((d : ℚ)) := by
    rw [hd, Int.ofNat_eq_natCast]
    push_cast
    exact (Rat.num_div_den q).symm
  have hsubq : (0 : ℚ) ≤ (d : ℚ) - (rem : ℚ) := by
    have hc : (rem : ℚ) < (d : ℚ) := by exact_mod_cast hremd
    linarith
  have hfq : (f : ℚ) - q = -(((rem : ℚ)) / ((d : ℚ))) := by
    rw [hq, hrem]
    push_cast
    field_simp
  have hf1q : ((f : ℚ) + 1) - q = ((d : ℚ) - (rem : ℚ)) / ((d : ℚ)) := by
    rw [hq, hrem]
    push_cast
    field_simp
    ring
  split_ifs with h1 h2 h3
  · rw [hfq, abs_neg, abs_div, abs_of_nonneg (by exact_mod_cast hrem0),
      abs_of_pos hdq, div_le_div_iff hdq (by norm_num)]
    have : (2 : ℚ) * (rem : ℚ) ≤ (d : ℚ) := by exact_mod_cast le_of_lt h1
    linarith
  · push_cast
    rw [hf1q, abs_div, abs_of_nonneg hsubq, abs_of_pos hdq,
      div_le_div_iff hdq (by norm_num)]
    have : (d : ℚ) < 2 * (rem : ℚ) := by exact_mod_cast h2
    linarith
  · rw [hfq, abs_neg, abs_div, abs_of_nonneg (by exact_mod_cast hrem0),
      abs_of_pos hdq, div_le_div_iff hdq (by norm_num)]
    have : (2 : ℚ) * (rem : ℚ) = (d : ℚ) := by
      exact_mod_cast le_antisymm (not_lt.mp h2) (not_lt.mp h1)
    linarith
  · push_cast
    rw [hf1q, abs_div, abs_of_nonneg hsubq, abs_of_pos hdq,
      div_le_div_iff hdq (by norm_num)]
    have : (2 : ℚ) * (rem : ℚ) = (d : ℚ) := by
      exact_mod_cast le_antisymm (not_lt.mp h2) (not_lt.mp h1)
    linarith

/-- C2: for every positive cost and margin in `[0, 1)`,
`calculate_engineering_rate` returns `cost / (1 - margin)` rounded to the
nearest integer (at most one half away from the exact quotient); in particular
`(100, 0.45) ↦ 182` and `(120, 0.50) ↦ 240`; and a margin `≥ 1` or a cost
`≤ 0` raises a `ValueError` (never silently clamped). -/
theorem calculate_engineering_rate_spec (cost margin : ℚ)
    (hcost : 0 < cost) (hm0 : 0 ≤ margin) (hm1 : margin < 1) :
    calculate_engineering_rate cost margin = .ok (pyRound (cost / (1 - margin))) ∧
    |(pyRound (cost / (1 - margin)) : ℚ) - cost / (1 - margin)| ≤ 1 / 2 ∧
    calculate_engineering_rate 100 (mkRat 9 20) = .ok 182 ∧
    calculate_engineering_rate 120 (mkRat 1 2) = .ok 240 ∧
    (∀ c m : ℚ, 1 ≤ m ∨ c ≤ 0 → ∃ e, calculate_engineering_rate c m = .error e) := by
  refine ⟨?_, pyRound_nearest _, by decide, by decide, ?_⟩
  · rw [calculate_engineering_rate]
    rw [if_neg (not_le.mpr hcost), if_neg (by push_neg; exact ⟨hm0, hm1⟩)]
    have hden : qSubQ 1 margin = 1 - margin := qSubQ_eq 1 margin
    have hpos : (0 : ℚ) < 1 - margin := by linarith
    rw [if_neg (by rw [hden]; exact not_le.mpr hpos)]
    rw [hden, qDivQ_eq]
  · intro c m hcm
    rw [calculate_engineering_rate]
    by_cases hc : c ≤ 0
    · rw [if_pos hc]
      exact ⟨_, rfl⟩
    · rw [if_neg hc]
      have hm : 1 ≤ m := by tauto
      rw [if_pos (Or.inr hm)]
      exact ⟨_, rfl⟩

/-- Witness for C2: the theorem applied at cost `100`, margin `0.45`
(`100 / 0.55 = 181.81… → 182`). -/
theorem calculate_engineering_rate_spec_witness :
    calculate_engineering_rate 100 (mkRat 9 20) = .ok 182 :=
  (calculate_engineering_rate_spec 100 (mkRat 9 20) (by decide) (by decide)
    (by decide)).2.2.1

/-! ## Batch rate calculation (rate_card_calculator.py, lines 77–228)

`read_standard_cost_rates` reads a fixed vertical run of cells; the worksheet
is modelled as a total function from cell references to cell values (an
xlwings read either returns `None`, a number, or a string).
`calculate_engineering_rates` then produces exactly one `EngineeringRate` per
input `StandardCostRate`, retaining invalid entries as skipped. -/

/-- A cell value as returned by the automation layer. -/
inductive CellV where
  | vNone
  | vNum (q : ℚ)
  | vStr (s : List Char)
deriving DecidableEq, Repr

/-- Digits-to-number accumulator for the decimal parser. -/
def natOfDigits (s : List Char) : ℕ :=
  s.foldl (fun acc c => 10 * acc + (c.toNat - 48)) 0

/-- Unsigned decimal literal: `digits`, `digits.digits`, `digits.` or
`.digits`. -/
def parseUnsigned (s : List Char) : Option ℚ :=
  let intPart := s.takeWhile isAsciiDigit
  let rest := s.dropWhile isAsciiDigit
  match rest with
  | [] => if intPart.isEmpty then none else some (qOfNat (natOfDigits intPart))
  | '.' :: frac =>
    if frac.all isAsciiDigit && !(intPart.isEmpty && frac.isEmpty) then
      some (mkRat (Int.ofNat (natOfDigits (intPart ++ frac))) (10 ^ frac.length))
    else none
  | _ => none

/-- Python `float(str)` (decimal forms only; exponents, `inf` and `nan` are
not modelled — no claim depends on them). -/
def pyFloatOfStr (s : List Char) : Option ℚ :=
  match pyStrip s with
  | '+' :: r => parseUnsigned r
  | '-' :: r => (parseUnsigned r).map (fun q => mkRat (-q.num) q.den)
  | t => parseUnsigned t

/-- Python `float(cell_value)` on a cell value; `none` models the
`ValueError`/`TypeError` caught by `read_standard_cost_rates`. -/
def pyFloat : CellV → Option ℚ
  | .vNum q => some q
  | .vStr s => pyFloatOfStr s
  | .vNone => none

/-- `StandardCostRate` (data_models.py). -/
structure StandardCostRate where
  staff_level : String
  cost_rate : Option ℚ
  row_index : Option ℤ
  is_valid : Bool
  error_message : Option String
  cell_reference : Option String
deriving DecidableEq, Repr

/-- `EngineeringRate` (data_models.py). -/
structure EngineeringRate where
  staff_level : String
  standard_cost_rate : Option ℚ
  client_margin : Option ℚ
  engineering_rate : Option ℤ
  row_index : Option ℤ
  is_valid : Bool
  error_message : Option String
  cell_reference : Option String
deriving DecidableEq, Repr

/-- `RateCalculationResult` (data_models.py). -/
structure RateCalculationResult where
  calculated_rates : List EngineeringRate
  total_processed : ℕ
  successful_calculations : ℕ
  skipped_invalid : ℕ
  errors : List String
deriving DecidableEq, Repr

/-- `read_standard_cost_rates` (rate_card_calculator.py, lines 77–156): read
`row_count` cells downwards from `start_row` in the given column; an empty
cell, a non-positive number, or a non-numeric value is retained as an invalid
entry with its error message (interpolated values omitted), preserving row
order. -/
def read_standard_cost_rates (readCell : String → CellV) (column : String)
    (start_row : ℤ) (row_count : ℕ) : List StandardCostRate :=
  (List.range row_count).map fun i =>
    let row_num := start_row + i
    let staff_level := "Level " ++ toString (i + 1)
    let cell_reference := column ++ toString row_num
    let cell_value := readCell cell_reference
    if cell_value = CellV.vNone ∨ cell_value = CellV.vStr [] then
      { staff_level := staff_level, cost_rate := none, row_index := some row_num,
        is_valid := false, error_message := some "Empty cell",
        cell_reference := some cell_reference }
    else
      match pyFloat cell_value with
      | some cost_rate =>
        if cost_rate ≤ 0 then
          { staff_level := staff_level, cost_rate := none, row_index := some row_num,
            is_valid := false, error_message := some "Invalid rate (must be positive)",
            cell_reference := some cell_reference }
        else
          { staff_level := staff_level, cost_rate := some cost_rate,
            row_index := some row_num, is_valid := true, error_message := none,
            cell_reference := some cell_reference }
      | none =>
        { staff_level := staff_level, cost_rate := none, row_index := some row_num,
          is_valid := false, error_message := some "Non-numeric value",
          cell_reference := some cell_reference }

/-- `f"O{row_index}" if standard_rate.row_index else None`: the Python
truthiness test also maps row `0` to `None`. -/
def rateCellRef (row_index : Option ℤ) : Option String :=
  match row_index with
  | some r => if r = 0 then none else some ("O" ++ toString r)
  | none => none

/-- Python `error_message or "Invalid standard rate"` (an empty string is
falsy). -/
def pyOrStr (o : Option String) (d : String) : String :=
  match o with
  | some m => if m = "" then d else m
  | none => d

/-- The single `EngineeringRate` that one loop iteration of
`calculate_engineering_rates` appends for one input `StandardCostRate`:
skipped when the input is invalid or has no cost, otherwise derived (or an
error entry when `calculate_engineering_rate` raises). -/
def engineeringEntryFor (margin : ℚ) (sr : StandardCostRate) : EngineeringRate :=
  match sr.cost_rate, sr.is_valid with
  | some c, true =>
    match calculate_engineering_rate c margin with
    | .ok v =>
      { staff_level := sr.staff_level, standard_cost_rate := some c,
        client_margin := some margin, engineering_rate := some v,
        row_index := sr.row_index, is_valid := true, error_message := none,
        cell_reference := rateCellRef sr.row_index }
    | .error e =>
      { staff_level := sr.staff_level, standard_cost_rate := some c,
        client_margin := some margin, engineering_rate := none,
        row_index := sr.row_index, is_valid := false, error_message := some e,
        cell_reference := rateCellRef sr.row_index }
  | _, _ =>
    { staff_level := sr.staff_level, standard_cost_rate := none,
      client_margin := none, engineering_rate := none,
      row_index := sr.row_index, is_valid := false,
      error_message := some (pyOrStr sr.error_message "Invalid standard rate"),
      cell_reference := rateCellRef sr.row_index }

/-- One iteration of the loop of `calculate_engineering_rates` (lines
180–220): append the entry for this input and update the
`(errors, successful, skipped)` statistics. -/
def rateCalcStep (margin : ℚ) (acc : List EngineeringRate × List String × ℕ × ℕ)
    (sr : StandardCostRate) : List EngineeringRate × List String × ℕ × ℕ :=
  match sr.cost_rate, sr.is_valid with
  | some c, true =>
    match calculate_engineering_rate c margin with
    | .ok _ => (acc.1 ++ [engineeringEntryFor margin sr], acc.2.1,
        acc.2.2.1 + 1, acc.2.2.2)
    | .error e => (acc.1 ++ [engineeringEntryFor margin sr],
        acc.2.1 ++ ["Calculation failed for " ++ sr.staff_level ++ ": " ++ e],
        acc.2.2.1, acc.2.2.2)
  | _, _ => (acc.1 ++ [engineeringEntryFor margin sr], acc.2.1,
      acc.2.2.1, acc.2.2.2 + 1)

/-- `calculate_engineering_rates` (rate_card_calculator.py, lines 159–228). -/
def calculate_engineering_rates (standard_rates : List StandardCostRate)
    (client_margin_decimal : ℚ) : RateCalculationResult :=
  let r := standard_rates.foldl (rateCalcStep client_margin_decimal) ([], [], 0, 0)
  { calculated_rates := r.1, total_processed := standard_rates.length,
    successful_calculations := r.2.2.1, skipped_invalid := r.2.2.2,
    errors := r.2.1 }

theorem rateCalcStep_fst (margin : ℚ) (acc : List EngineeringRate × List String × ℕ × ℕ)
    (sr : StandardCostRate) :
    (rateCalcStep margin acc sr).1 = acc.1 ++ [engineeringEntryFor margin sr] := by
  rw [rateCalcStep]
  rcases hc : sr.cost_rate with - | c
  · rfl
  · rcases hv : sr.is_valid
    · rfl
    · rcases hcalc : calculate_engineering_rate c margin with e | v
      · simp [hcalc]
      · simp [hcalc]

theorem foldl_rateCalcStep_fst (margin : ℚ) (l : List StandardCostRate)
    (init : List EngineeringRate × List String × ℕ × ℕ) :
    (l.foldl (rateCalcStep margin) init).1 =
      init.1 ++ l.map (engineeringEntryFor margin) := by
  induction l generalizing init with
  | nil => simp
  | cons x t IH =>
    rw [List.foldl_cons, IH, rateCalcStep_fst]
    simp

set_option maxRecDepth 40000 in
/-- C7: `calculate_engineering_rates` returns exactly one output entry per
input entry, in order (`calculated_rates` is the pointwise image of the
inputs): an invalid input is retained as a skipped entry carrying
`is_valid = false` and its error message (`"Empty cell"` preserved, `or`-default
`"Invalid standard rate"`), and a valid input yields the derived rate.  For
the standard rates read from cells `(Q28, Q29, Q30) = (100.0, empty, 120.0)`
at margin `0.45`, the derived list is `182`, a skipped `"Empty cell"` entry,
and `218`, row-aligned at rows `28`, `29`, `30`. -/
theorem calculate_engineering_rates_row_aligned
    (standard_rates : List StandardCostRate) (margin : ℚ) :
    (calculate_engineering_rates standard_rates margin).calculated_rates =
      standard_rates.map (engineeringEntryFor margin) ∧
    (calculate_engineering_rates standard_rates margin).calculated_rates.length =
      standard_rates.length ∧
    (∀ sr : StandardCostRate, sr.is_valid = false ∨ sr.cost_rate = none →
      (engineeringEntryFor margin sr).is_valid = false ∧
      (engineeringEntryFor margin sr).engineering_rate = none ∧
      (engineeringEntryFor margin sr).error_message =
        some (pyOrStr sr.error_message "Invalid standard rate") ∧
      (engineeringEntryFor margin sr).row_index = sr.row_index) ∧
    (∀ (sr : StandardCostRate) (c : ℚ) (v : ℤ), sr.cost_rate = some c →
      sr.is_valid = true → calculate_engineering_rate c margin = .ok v →
      (engineeringEntryFor margin sr).is_valid = true ∧
      (engineeringEntryFor margin sr).engineering_rate = some v ∧
      (engineeringEntryFor margin sr).row_index = sr.row_index) ∧
    (calculate_engineering_rates
        (read_standard_cost_rates
          (fun ref => if ref = "Q28" then .vNum 100
            else if ref = "Q29" then .vNone
            else if ref = "Q30" then .vNum 120 else .vNone) "Q" 28 3)
        (mkRat 9 20)).calculated_rates =
      [{ staff_level := "Level 1", standard_cost_rate := some 100,
         client_margin := some (mkRat 9 20), engineering_rate := some 182,
         row_index := some 28, is_valid := true, error_message := none,
         cell_reference := some "O28" },
       { staff_level := "Level 2", standard_cost_rate := none,
         client_margin := none, engineering_rate := none,
         row_index := some 29, is_valid := false,
         error_message := some "Empty cell", cell_reference := some "O29" },
       { staff_level := "Level 3", standard_cost_rate := some 120,
         client_margin := some (mkRat 9 20), engineering_rate := some 218,
         row_index := some 30, is_valid := true, error_message := none,
         cell_reference := some "O30" }] := by
  refine ⟨?_, ?_, ?_, ?_, by decide⟩
  · rw [calculate_engineering_rates]
    rw [foldl_rateCalcStep_fst]
    simp
  · rw [calculate_engineering_rates, foldl_rateCalcStep_fst]
    simp
  · intro sr hsr
    rw [engineeringEntryFor]
    rcases hc : sr.cost_rate with - | c
    · exact ⟨rfl, rfl, rfl, rfl⟩
    · rcases hv : sr.is_valid
      · exact ⟨rfl, rfl, rfl, rfl⟩
      · rcases hsr with h | h
        · rw [hv] at h; exact absurd h (by simp)
        · rw [hc] at h; exact absurd h (by simp)
  · intro sr c v hc hv hcalc
    rw [engineeringEntryFor, hc, hv]
    simp [hcalc]

set_option maxRecDepth 40000 in
/-- Witness for C7: the theorem applied at the concrete scenario inputs; the
invalid middle entry keeps `is_valid = false` and `"Empty cell"`. -/
theorem calculate_engineering_rates_row_aligned_witness :
    (engineeringEntryFor (mkRat 9 20)
      { staff_level := "Level 2", cost_rate := none, row_index := some 29,
        is_valid := false, error_message := some "Empty cell",
        cell_reference := some "Q29" }).error_message = some "Empty cell" :=
  ((calculate_engineering_rates_row_aligned [] (mkRat 9 20)).2.2.1
    { staff_level := "Level 2", cost_rate := none, row_index := some 29,
      is_valid := false, error_message := some "Empty cell",
      cell_reference := some "Q29" } (Or.inl rfl)).2.2.1

/-! ## Population results (excel_data_populator.py) -/

/-- `PopulationResult` (excel_data_populator.py, lines 30–47). -/
structure PopulationResult where
  successful_fields : ℕ
  failed_fields : ℕ
  total_fields : ℕ
  error_messages : List (List Char)
  populated_fields : List (List Char)
deriving DecidableEq, Repr

/-- Python float division, raising `ZeroDivisionError` on a zero divisor. -/
def pyDiv (a b : ℚ) : Except String ℚ :=
  if b = 0 then .error "ZeroDivisionError" else .ok (qDivQ a b)

/-- The `success_rate` property: `0.0` when no fields, otherwise
`(successful_fields / total_fields) * 100`. -/
def PopulationResult.success_rate (r : PopulationResult) : Except String ℚ :=
  if r.total_fields = 0 then .ok 0
  else (pyDiv (qOfNat r.successful_fields) (qOfNat r.total_fields)).map
    (fun q => qMulQ q 100)

/-- C10: `success_rate` is total — the guard returns `0.0` for
`total_fields = 0`, so the division can never raise `ZeroDivisionError`, and
otherwise the value is `(successful_fields / total_fields) * 100`. -/
theorem success_rate_total (r : PopulationResult) :
    (r.total_fields = 0 → r.success_rate = .ok 0) ∧
    (r.total_fields ≠ 0 → r.success_rate =
      .ok ((r.successful_fields : ℚ) / (r.total_fields : ℚ) * 100)) ∧
    ∃ v, r.success_rate = .ok v := by
  refine ⟨?_, ?_, ?_⟩
  · intro h
    rw [PopulationResult.success_rate, if_pos h]
  · intro h
    rw [PopulationResult.success_rate, if_neg h]
    have hb : qOfNat r.total_fields ≠ 0 := by
      rw [qOfNat_eq]
      exact_mod_cast h
    rw [pyDiv, if_neg hb]
    simp only [Except.map]
    rw [qMulQ_eq, qDivQ_eq, qOfNat_eq, qOfNat_eq]
  · by_cases h : r.total_fields = 0
    · exact ⟨0, by rw [PopulationResult.success_rate, if_pos h]⟩
    · refine ⟨(r.successful_fields : ℚ) / (r.total_fields : ℚ) * 100, ?_⟩
      rw [PopulationResult.success_rate, if_neg h]
      have hb : qOfNat r.total_fields ≠ 0 := by
        rw [qOfNat_eq]
        exact_mod_cast h
      rw [pyDiv, if_neg hb]
      simp only [Except.map]
      rw [qMulQ_eq, qDivQ_eq, qOfNat_eq, qOfNat_eq]

/-- Witness for C10: the theorem applied to a concrete result with 3 of 4
fields populated (rate `75%`), and to one with no fields (rate `0.0`). -/
theorem success_rate_total_witness :
    (PopulationResult.mk 3 1 4 [] []).success_rate =
      .ok (((3 : ℕ) : ℚ) / ((4 : ℕ) : ℚ) * 100) ∧
    (PopulationResult.mk 0 0 0 [] []).success_rate = .ok 0 :=
  ⟨(success_rate_total (PopulationResult.mk 3 1 4 [] [])).2.1 (by decide),
   (success_rate_total (PopulationResult.mk 0 0 0 [] [])).1 (by decide)⟩

/-! ## Population writers (excel_data_populator.py)

The xlwings worksheet is modelled as a state `σ` together with reference-
addressed read/write operations that may raise (`XwOps`); the openpyxl
worksheet used by `populate_matched_fields` is addressed by `(row, column)`
(`PyxlOps`).  `V` is the type of values read back from a cell; `pyStrV`
models `str(value)` and `eqStr` models openpyxl's `cell.value == value`. -/

/-- xlwings-style cell operations, addressed by reference string. -/
structure XwOps (σ V : Type) where
  readRef : σ → List Char → Except (List Char) V
  writeRef : σ → List Char → List Char → Except (List Char) σ
  pyStrV : V → List Char

/-- openpyxl-style cell operations, addressed by row/column. -/
structure PyxlOps (σ V : Type) where
  readCellRC : σ → ℤ → ℤ → Except (List Char) V
  writeCellRC : σ → ℤ → ℤ → List Char → Except (List Char) σ
  eqStr : V → List Char → Bool

/-- The loop state of a population pass. -/
structure PopLoopState (σ : Type) where
  ws : σ
  successful_fields : ℕ
  failed_fields : ℕ
  error_messages : List (List Char)
  populated_fields : List (List Char)

/-- The per-match write-target adjustment of `populate_fields_in_worksheet`
and `populate_matched_fields_xlwings`:
`if target_cell_ref.startswith('E'): target_cell_ref = 'F' + target_cell_ref[1:]`. -/
def adjustERef (ref : List Char) : List Char :=
  if pyStartsWith ref (['E'] : List Char) then 'F' :: ref.drop 1 else ref

/-- One iteration of `populate_fields_in_worksheet` (excel_data_populator.py,
lines 362–400) and of the identical loop of `populate_matched_fields_xlwings`
(lines 267–305): adjust the target reference, read the current value, write,
read back, and compare as strings; any raise is caught, counted as a failed
field, and recorded. -/
def populateStep {σ V : Type} (ops : XwOps σ V) (st : PopLoopState σ)
    (m : FieldMatch) : PopLoopState σ :=
  let target_cell_ref := adjustERef m.target_location.cell_reference
  let failMsg := fun (e : List Char) =>
    "Failed to populate ".data ++ m.source_field ++ ": ".data ++ e
  match ops.readRef st.ws target_cell_ref with
  | .error e =>
    { st with
      failed_fields := st.failed_fields + 1
      error_messages := st.error_messages ++ [failMsg e] }
  | .ok _ =>
    match ops.writeRef st.ws target_cell_ref m.source_value with
    | .error e =>
      { st with
        failed_fields := st.failed_fields + 1
        error_messages := st.error_messages ++ [failMsg e] }
    | .ok ws2 =>
      match ops.readRef ws2 target_cell_ref with
      | .error e =>
        { st with
          ws := ws2
          failed_fields := st.failed_fields + 1
          error_messages := st.error_messages ++ [failMsg e] }
      | .ok new_value =>
        if ops.pyStrV new_value = m.source_value then
          { st with
            ws := ws2
            successful_fields := st.successful_fields + 1
            populated_fields := st.populated_fields ++ [m.source_field] }
        else
          { st with
            ws := ws2
            failed_fields := st.failed_fields + 1 }

/-- `populate_fields_in_worksheet` (excel_data_populator.py, lines 333–418):
run the per-match loop on an already-open worksheet and return the
`PopulationResult` (the outer `try` of the function guards only the loop
itself, which cannot raise once each iteration catches its own exceptions). -/
def populate_fields_in_worksheet {σ V : Type} (ops : XwOps σ V) (ws : σ)
    (ms : List FieldMatch) : PopulationResult × σ :=
  let st := ms.foldl (populateStep ops) (PopLoopState.mk ws 0 0 [] [])
  (PopulationResult.mk st.successful_fields st.failed_fields ms.length
    st.error_messages st.populated_fields, st.ws)

/-- `populate_matched_fields_xlwings` (excel_data_populator.py, lines
218–330): open the workbook (any raise there, or in the final save, falls to
the outer handler with `failed = len(matches)`, `successful = 0`), require the
`Pricing Setup` sheet, then run the same per-match loop. -/
def populate_matched_fields_xlwings {σ V : Type}
    (openBook : Except (List Char) (σ × Bool)) (ops : XwOps σ V)
    (saveBook : σ → Except (List Char) Unit)
    (ms : List FieldMatch) : PopulationResult :=
  match openBook with
  | .error e =>
    PopulationResult.mk 0 ms.length ms.length
      ["Failed to open/save .xlsb file: ".data ++ e] []
  | .ok (ws, hasSheet) =>
    if hasSheet then
      let st := ms.foldl (populateStep ops) (PopLoopState.mk ws 0 0 [] [])
      match saveBook st.ws with
      | .ok _ =>
        PopulationResult.mk st.successful_fields st.failed_fields ms.length
          st.error_messages st.populated_fields
      | .error e =>
        PopulationResult.mk 0 ms.length ms.length
          (st.error_messages ++ ["Failed to open/save .xlsb file: ".data ++ e])
          st.populated_fields
    else
      PopulationResult.mk 0 ms.length ms.length
        ["Pricing Setup worksheet not found in .xlsb file".data] []

/-- `write_value_to_cell` (excel_data_populator.py, lines 50–90): read the
original value, write, read back, and compare with `==`; any raise returns
`False`. -/
def write_value_to_cell {σ V : Type} (ops : PyxlOps σ V) (ws : σ)
    (location : CellLocation) (value : List Char) : Bool × σ :=
  match ops.readCellRC ws location.row location.column with
  | .error _ => (false, ws)
  | .ok _ =>
    match ops.writeCellRC ws location.row location.column value with
    | .error _ => (false, ws)
    | .ok ws2 =>
      match ops.readCellRC ws2 location.row location.column with
      | .error _ => (false, ws2)
      | .ok v => (ops.eqStr v value, ws2)

/-- One iteration of the loop of `populate_matched_fields` (lines 147–158):
write via `write_value_to_cell` — note: directly at the matched location,
with no label-column adjustment. -/
def pyxlStep {σ V : Type} (ops : PyxlOps σ V) (st : PopLoopState σ)
    (m : FieldMatch) : PopLoopState σ :=
  let r := write_value_to_cell ops st.ws m.target_location m.source_value
  if r.1 then
    { st with
      ws := r.2
      successful_fields := st.successful_fields + 1
      populated_fields := st.populated_fields ++
        [m.source_field ++ " -> ".data ++ m.target_location.cell_reference] }
  else
    { st with
      ws := r.2
      failed_fields := st.failed_fields + 1
      error_messages := st.error_messages ++
        ["Failed to populate ".data ++ m.source_field ++ " at ".data ++
          m.target_location.cell_reference] }

/-- `populate_matched_fields` (excel_data_populator.py, lines 93–196): empty
input short-circuits; a failed open / missing sheet / failed save yields the
all-failed result; otherwise the loop counts each match once. -/
def populate_matched_fields {σ V : Type}
    (openBook : Except (List Char) (σ × Bool)) (ops : PyxlOps σ V)
    (saveBook : σ → Except (List Char) Unit)
    (ms : List FieldMatch) : PopulationResult :=
  if ms.isEmpty then
    PopulationResult.mk 0 0 0 ["No field matches provided".data] []
  else
    match openBook with
    | .error e =>
      PopulationResult.mk 0 ms.length ms.length
        ["Error during population: ".data ++ e] []
    | .ok (ws, hasSheet) =>
      if hasSheet then
        let st := ms.foldl (pyxlStep ops) (PopLoopState.mk ws 0 0 [] [])
        match saveBook st.ws with
        | .ok _ =>
          PopulationResult.mk st.successful_fields st.failed_fields
            ms.length st.error_messages st.populated_fields
        | .error e =>
          PopulationResult.mk 0 ms.length ms.length
            ["Error during population: ".data ++ e] []
      else
        PopulationResult.mk 0 ms.length ms.length
          ["Target worksheet Pricing Setup not found".data] []

/-! ### C6: outcome counts -/

theorem populateStep_counts {σ V : Type} (ops : XwOps σ V) (st : PopLoopState σ)
    (m : FieldMatch) :
    (populateStep ops st m).successful_fields + (populateStep ops st m).failed_fields
      = st.successful_fields + st.failed_fields + 1 := by
  rw [populateStep]
  rcases hrd : ops.readRef st.ws (adjustERef m.target_location.cell_reference) with e | v
  · simp
    omega
  · rcases hw : ops.writeRef st.ws (adjustERef m.target_location.cell_reference)
      m.source_value with e | ws2
    · simp [hw]
      omega
    · simp only [hw]
      rcases hr : ops.readRef ws2 (adjustERef m.target_location.cell_reference) with e | nv
      · simp [hr]
        omega
      · by_cases h : ops.pyStrV nv = m.source_value
        · simp [hr, h]
          omega
        · simp [hr, h]
          omega

theorem pyxlStep_counts {σ V : Type} (ops : PyxlOps σ V) (st : PopLoopState σ)
    (m : FieldMatch) :
    (pyxlStep ops st m).successful_fields + (pyxlStep ops st m).failed_fields
      = st.successful_fields + st.failed_fields + 1 := by
  rw [pyxlStep]
  by_cases h : (write_value_to_cell ops st.ws m.target_location m.source_value).1
  · simp only [if_pos h]
    omega
  · simp only [if_neg h]
    omega

theorem foldl_populateStep_counts {σ V : Type} (ops : XwOps σ V)
    (ms : List FieldMatch) (init : PopLoopState σ) :
    (ms.foldl (populateStep ops) init).successful_fields +
      (ms.foldl (populateStep ops) init).failed_fields =
      init.successful_fields + init.failed_fields + ms.length := by
  induction ms generalizing init with
  | nil => simp
  | cons m t IH =>
    rw [List.foldl_cons, IH, populateStep_counts]
    simp only [List.length_cons]
    omega

theorem foldl_pyxlStep_counts {σ V : Type} (ops : PyxlOps σ V)
    (ms : List FieldMatch) (init : PopLoopState σ) :
    (ms.foldl (pyxlStep ops) init).successful_fields +
      (ms.foldl (pyxlStep ops) init).failed_fields =
      init.successful_fields + init.failed_fields + ms.length := by
  induction ms generalizing init with
  | nil => simp
  | cons m t IH =>
    rw [List.foldl_cons, IH, pyxlStep_counts]
    simp only [List.length_cons]
    omega

/-- C6: for every call of the population writers — any worksheet backend, any
initial state, any match list — the returned `PopulationResult` satisfies
`successful_fields + failed_fields = total_fields` and
`total_fields = matches.length` (each match is counted exactly once as a
success or a failure; every early-exit path fails all matches). -/
theorem population_counts_invariant {σ V : Type} (ops : XwOps σ V)
    (pops : PyxlOps σ V) (ws : σ) (openBook : Except (List Char) (σ × Bool))
    (saveBook : σ → Except (List Char) Unit) (ms : List FieldMatch) :
    ((populate_fields_in_worksheet ops ws ms).1.successful_fields +
        (populate_fields_in_worksheet ops ws ms).1.failed_fields =
      (populate_fields_in_worksheet ops ws ms).1.total_fields ∧
      (populate_fields_in_worksheet ops ws ms).1.total_fields = ms.length) ∧
    ((populate_matched_fields openBook pops saveBook ms).successful_fields +
        (populate_matched_fields openBook pops saveBook ms).failed_fields =
      (populate_matched_fields openBook pops saveBook ms).total_fields ∧
      (populate_matched_fields openBook pops saveBook ms).total_fields =
        ms.length) ∧
    ((populate_matched_fields_xlwings openBook ops saveBook ms).successful_fields +
        (populate_matched_fields_xlwings openBook ops saveBook ms).failed_fields =
      (populate_matched_fields_xlwings openBook ops saveBook ms).total_fields ∧
      (populate_matched_fields_xlwings openBook ops saveBook ms).total_fields =
        ms.length) := by
  refine ⟨⟨?_, rfl⟩, ⟨?_, ?_⟩, ⟨?_, ?_⟩⟩
  · show (ms.foldl (populateStep ops) (PopLoopState.mk ws 0 0 [] [])).successful_fields +
      (ms.foldl (populateStep ops) (PopLoopState.mk ws 0 0 [] [])).failed_fields
        = ms.length
    rw [foldl_populateStep_counts]
    simp
  · unfold populate_matched_fields
    by_cases hm : ms.isEmpty
    · rw [if_pos hm]
      rfl
    · rw [if_neg hm]
      rcases openBook with e | ⟨ws0, hasSheet⟩
      · simp
      · by_cases hs : hasSheet
        · simp only [if_pos hs]
          rcases hsave : saveBook (ms.foldl (pyxlStep pops)
              (PopLoopState.mk ws0 0 0 [] [])).ws with e | u
          · simp [hsave]
          · simp only [hsave]
            show (ms.foldl (pyxlStep pops) (PopLoopState.mk ws0 0 0 [] [])).successful_fields +
              (ms.foldl (pyxlStep pops) (PopLoopState.mk ws0 0 0 [] [])).failed_fields
                = ms.length
            rw [foldl_pyxlStep_counts]
            simp
        · simp only [if_neg hs]
          simp
  · unfold populate_matched_fields
    by_cases hm : ms.isEmpty
    · rw [if_pos hm]
      simp only [List.isEmpty_iff] at hm
      simp [hm]
    · rw [if_neg hm]
      rcases openBook with e | ⟨ws0, hasSheet⟩
      · rfl
      · by_cases hs : hasSheet
        · simp only [if_pos hs]
          rcases hsave : saveBook (ms.foldl (pyxlStep pops)
              (PopLoopState.mk ws0 0 0 [] [])).ws with e | u
          · simp [hsave]
          · simp [hsave]
        · simp only [if_neg hs]
  · unfold populate_matched_fields_xlwings
    rcases openBook with e | ⟨ws0, hasSheet⟩
    · simp
    · by_cases hs : hasSheet
      · simp only [if_pos hs]
        rcases hsave : saveBook (ms.foldl (populateStep ops)
            (PopLoopState.mk ws0 0 0 [] [])).ws with e | u
        · simp [hsave]
        · simp only [hsave]
          show (ms.foldl (populateStep ops) (PopLoopState.mk ws0 0 0 [] [])).successful_fields +
            (ms.foldl (populateStep ops) (PopLoopState.mk ws0 0 0 [] [])).failed_fields
              = ms.length
          rw [foldl_populateStep_counts]
          simp
      · simp only [if_neg hs]
        simp
  · unfold populate_matched_fields_xlwings
    rcases openBook with e | ⟨ws0, hasSheet⟩
    · rfl
    · by_cases hs : hasSheet
      · simp only [if_pos hs]
        rcases hsave : saveBook (ms.foldl (populateStep ops)
            (PopLoopState.mk ws0 0 0 [] [])).ws with e | u
        · simp [hsave]
        · simp [hsave]
      · simp only [if_neg hs]

/-- Witness for C6 (the theorem has no `Prop` hypotheses; this exercises it at
a concrete call): one match against a backend whose read-back matches the
written value, so the counts are `1 + 0 = 1`. -/
theorem population_counts_invariant_witness :
    (populate_fields_in_worksheet
      (XwOps.mk (fun s _ => .ok s) (fun _ _ v => .ok v) (fun v => v))
      ("Acme Corp".data)
      [FieldMatch.mk "client name".data
        (CellLocation.mk 16 5 "E16".data "Client Name:".data) 1
        "Acme Corp".data "core_string_openpyxl".data]).1.successful_fields +
    (populate_fields_in_worksheet
      (XwOps.mk (fun s _ => .ok s) (fun _ _ v => .ok v) (fun v => v))
      ("Acme Corp".data)
      [FieldMatch.mk "client name".data
        (CellLocation.mk 16 5 "E16".data "Client Name:".data) 1
        "Acme Corp".data "core_string_openpyxl".data]).1.failed_fields =
    (populate_fields_in_worksheet
      (XwOps.mk (fun s _ => .ok s) (fun _ _ v => .ok v) (fun v => v))
      ("Acme Corp".data)
      [FieldMatch.mk "client name".data
        (CellLocation.mk 16 5 "E16".data "Client Name:".data) 1
        "Acme Corp".data "core_string_openpyxl".data]).1.total_fields :=
  (population_counts_invariant
    (XwOps.mk (fun s _ => .ok s) (fun _ _ v => .ok v) (fun v => v))
    (PyxlOps.mk (fun s _ _ => .ok s) (fun s _ _ _ => .ok s) (fun _ _ => true))
    ("Acme Corp".data) (.ok ("Acme Corp".data, true)) (fun _ => .ok ())
    [FieldMatch.mk "client name".data
      (CellLocation.mk 16 5 "E16".data "Client Name:".data) 1
      "Acme Corp".data "core_string_openpyxl".data]).1.1

/-! ### C8: write-target resolution (label column E → value column F) -/

/-- `chr(64 + col)` — the column letter used when cell references are built
from `(row, column)` indices (columns `1`–`26` give `'A'`–`'Z'`). -/
def colLetter (col : ℤ) : Char := Char.ofNat (64 + col).toNat

/-- A `CellLocation` whose reference string is consistent with its row and
column indices (single-letter column, as produced by every scanner of
field_matcher.py). -/
def wellFormedRef (loc : CellLocation) : Prop :=
  loc.cell_reference = colLetter loc.column :: (toString loc.row).data ∧
  1 ≤ loc.column ∧ loc.column ≤ 26 ∧ 1 ≤ loc.row

theorem adjustERef_of_ne (c : Char) (rest : List Char) (hc : c ≠ 'E') :
    adjustERef (c :: rest) = c :: rest := by
  rw [adjustERef, if_neg]
  simp only [pyStartsWith, List.isPrefixOf, Bool.and_eq_true, beq_iff_eq]
  intro h
  exact hc h.1.symm

/-- A logging xlwings backend: every write appends `(reference, value)` to the
state; reads return the empty string and never raise. -/
def xwLogOps : XwOps (List (List Char × List Char)) (List Char) :=
  XwOps.mk (fun _ _ => .ok []) (fun s ref v => .ok (s ++ [(ref, v)])) (fun v => v)

/-- A logging openpyxl backend: every write appends `(row, column, value)`. -/
def pyxlLogOps : PyxlOps (List (ℤ × ℤ × List Char)) Unit :=
  PyxlOps.mk (fun _ _ _ => .ok ()) (fun s r c v => .ok (s ++ [(r, c, v)]))
    (fun _ _ => true)

theorem populateStep_log (st : PopLoopState (List (List Char × List Char)))
    (m : FieldMatch) :
    (populateStep xwLogOps st m).ws =
      st.ws ++ [(adjustERef m.target_location.cell_reference, m.source_value)] := by
  rw [populateStep]
  simp only [xwLogOps]
  split <;> rfl

theorem foldl_populateStep_log (ms : List FieldMatch)
    (init : PopLoopState (List (List Char × List Char))) :
    (ms.foldl (populateStep xwLogOps) init).ws =
      init.ws ++ ms.map (fun m =>
        (adjustERef m.target_location.cell_reference, m.source_value)) := by
  induction ms generalizing init with
  | nil => simp
  | cons m t IH =>
    rw [List.foldl_cons, IH, populateStep_log]
    simp

theorem pyxlStep_log (st : PopLoopState (List (ℤ × ℤ × List Char)))
    (m : FieldMatch) :
    (pyxlStep pyxlLogOps st m).ws =
      st.ws ++ [(m.target_location.row, m.target_location.column, m.source_value)] := by
  rw [pyxlStep]
  simp [write_value_to_cell, pyxlLogOps]

theorem foldl_pyxlStep_log (ms : List FieldMatch)
    (init : PopLoopState (List (ℤ × ℤ × List Char))) :
    (ms.foldl (pyxlStep pyxlLogOps) init).ws =
      init.ws ++ ms.map (fun m =>
        (m.target_location.row, m.target_location.column, m.source_value)) := by
  induction ms generalizing init with
  | nil => simp
  | cons m t IH =>
    rw [List.foldl_cons, IH, pyxlStep_log]
    simp

/-- C8 (amended): the fixed column-offset rule — write to the adjacent value
column `F` at the same row when the matched reference is in label column `E`,
otherwise write directly to the matched cell — holds for the write paths
`populate_fields_in_worksheet` and `populate_matched_fields_xlwings` (their
shared per-match loop resolves every write target through `adjustERef`); the
openpyxl path `populate_matched_fields` does *not* apply the rule: its loop
writes every value directly at the matched `(row, column)` location, even in
column `E` (see the counterexample). -/
theorem populate_write_target_offset_rule (loc : CellLocation)
    (h : wellFormedRef loc) (ms : List FieldMatch) :
    (loc.column = 5 → adjustERef loc.cell_reference =
      colLetter 6 :: (toString loc.row).data) ∧
    (loc.column ≠ 5 → adjustERef loc.cell_reference = loc.cell_reference) ∧
    ((populate_fields_in_worksheet xwLogOps [] ms).2 =
      ms.map (fun m => (adjustERef m.target_location.cell_reference, m.source_value))) ∧
    ((ms.foldl (pyxlStep pyxlLogOps) (PopLoopState.mk [] 0 0 [] [])).ws =
      ms.map (fun m => (m.target_location.row, m.target_location.column, m.source_value))) := by
  obtain ⟨href, hc1, hc26, hr1⟩ := h
  refine ⟨?_, ?_, ?_, ?_⟩
  · intro hc5
    rw [href, hc5]
    have hE : colLetter 5 = 'E' := by decide
    have hF : colLetter 6 = 'F' := by decide
    rw [hE, hF]
    simp [adjustERef, pyStartsWith, List.isPrefixOf]
  · intro hc5
    rw [href]
    refine adjustERef_of_ne _ _ ?_
    rcases loc with ⟨r, c, ref, content⟩
    simp only at hc1 hc26 hc5 ⊢
    interval_cases c <;> first | (exact absurd rfl hc5) | decide
  · show (ms.foldl (populateStep xwLogOps) (PopLoopState.mk [] 0 0 [] [])).ws = _
    rw [foldl_populateStep_log]
    simp
  · rw [foldl_pyxlStep_log]
    simp

/-- C8 counterexample: `populate_matched_fields` lacks the `E → F` adjustment.
For a match at label cell `E16` (row 16, column 5), its write loop writes the
value at `(16, 5)` — the matched label cell itself — although the claim
requires the write to go to the value column `F` (column 6) at the same row. -/
theorem populate_matched_fields_no_offset_counterexample :
    ([FieldMatch.mk "client name".data
        (CellLocation.mk 16 5 "E16".data "Client Name:".data) 1
        "Acme Corp".data "sequence_match".data].foldl
      (pyxlStep pyxlLogOps) (PopLoopState.mk [] 0 0 [] [])).ws =
      [((16 : ℤ), (5 : ℤ), "Acme Corp".data)] ∧
    ((16 : ℤ), (5 : ℤ)) ≠ ((16 : ℤ), (6 : ℤ)) := by
  constructor
  · rfl
  · decide

/-- Witness for C8: the theorem applied to the concrete label cell `E16`
(column 5, row 16): the adjusted write target is `F16`, and with the
concrete one-match list the xlwings write log is exactly `[(F16, value)]`. -/
theorem populate_write_target_offset_rule_witness :
    adjustERef (CellLocation.mk 16 5 "E16".data "Client Name:".data).cell_reference =
      colLetter 6 :: (toString (16 : ℤ)).data ∧
    (populate_fields_in_worksheet xwLogOps []
      [FieldMatch.mk "client name".data
        (CellLocation.mk 16 5 "E16".data "Client Name:".data) 1
        "Acme Corp".data "core_string_openpyxl".data]).2 =
      [(adjustERef "E16".data, "Acme Corp".data)] :=
  ⟨(populate_write_target_offset_rule
      (CellLocation.mk 16 5 "E16".data "Client Name:".data)
      (by unfold wellFormedRef; decide) []).1 rfl,
   (populate_write_target_offset_rule
      (CellLocation.mk 16 5 "E16".data "Client Name:".data)
      (by unfold wellFormedRef; decide)
      [FieldMatch.mk "client name".data
        (CellLocation.mk 16 5 "E16".data "Client Name:".data) 1
        "Acme Corp".data "core_string_openpyxl".data]).2.2.1⟩

/-! ## Orchestrator (excel_session_manager.py, `consolidated_data_population`) -/

/-- Outcome dictionary of one inner operation, reduced to the only key the
orchestrator reads: `result.get("success", False)`. -/
structure OpResult where
  success : Bool
deriving DecidableEq, Repr

/-- The three inner operations of the consolidated session, used to record
which helper calls the session body performs. -/
inductive OpTag where
  | dataPopulation
  | resourceSetup
  | rateCard
deriving DecidableEq, Repr

/-- Environment of one run: the outcome of opening the session
(`ExcelSessionManager.__enter__`), of each inner helper
(`_populate_data_in_session`, `_populate_resource_setup_in_session`,
`_calculate_rate_card_in_session` — `.error` is the exception's message), and
of the final `session.save()`. -/
structure SessionEnv where
  openSession : Except String Unit
  dataPop : Except String OpResult
  resourceSetup : Except String OpResult
  rateCard : Except String OpResult
  saveOp : Except String Unit
deriving DecidableEq, Repr

/-- The `results` dictionary built by `consolidated_data_population`
(excel_session_manager.py, lines 256–265), without the timing key. -/
structure ConsolidatedResults where
  data_population : Option OpResult
  resource_setup : Option OpResult
  rate_card : Option OpResult
  overall_success : Bool
  operations_completed : ℕ
  total_operations : ℕ
  errors : List String
deriving DecidableEq, Repr

/-- One `try/except` step of the session body: on success the result is
stored and `operations_completed` is incremented when the inner dictionary
reports success; on an exception the step contributes
`failMsg + str(e)` to `results["errors"]` and stores nothing. -/
def opStep (r : Except String OpResult) (failMsg : String) :
    Option OpResult × ℕ × List String :=
  match r with
  | .ok x => (some x, if x.success then 1 else 0, [])
  | .error e => (none, 0, [failMsg ++ e])

/-- `consolidated_data_population` (excel_session_manager.py, lines 191–350),
with `enable_rate_card && margin_given` standing for
`enable_rate_card and client_margin_decimal is not None`.  Returns the
`results` dictionary together with the list of inner helper calls the session
body performed (its call log).  Failure to open the session is caught by the
outer `except ExcelSessionError` handler; a `session.save()` failure raises
`ExcelSessionError("Failed to save Excel file: ...")` through the body into
the same handler, after which `results` is still returned. -/
def consolidated_data_population (env : SessionEnv)
    (enable_resource_setup enable_rate_card margin_given : Bool) :
    ConsolidatedResults × List OpTag :=
  let total_operations :=
    1 + (if enable_resource_setup then 1 else 0) +
      (if enable_rate_card && margin_given then 1 else 0)
  match env.openSession with
  | .error e =>
    (ConsolidatedResults.mk none none none false 0 total_operations
      ["Excel session error: " ++ e], [])
  | .ok _ =>
    let s1 := opStep env.dataPop "Data population failed: "
    let s2 :=
      if enable_resource_setup then
        opStep env.resourceSetup "Resource setup failed: "
      else (none, 0, [])
    let s3 :=
      if enable_rate_card && margin_given then
        opStep env.rateCard "Rate card calculation failed: "
      else (none, 0, [])
    let completed := s1.2.1 + s2.2.1 + s3.2.1
    let errs := s1.2.2 ++ s2.2.2 ++ s3.2.2
    let trace := OpTag.dataPopulation ::
      ((if enable_resource_setup then [OpTag.resourceSetup] else []) ++
        (if enable_rate_card && margin_given then [OpTag.rateCard] else []))
    let fin : Bool × List String :=
      if 0 < completed then
        match env.saveOp with
        | .ok _ => (true, errs)
        | .error e => (false, errs ++ ["Excel session error: " ++ e])
      else (false, errs)
    (ConsolidatedResults.mk s1.1 s2.1 s3.1 fin.1 completed total_operations
      fin.2, trace)

/-- C4: the orchestrator boundary of `consolidated_data_population`.  When
the session opens, the call log of the session body is exactly one call per
enabled inner operation, in order, regardless of which operations fail; an
exception inside data population, resource setup or rate card is caught and
recorded into `results["errors"]` with its step's prefix; and on every path —
including a failed session open — the caller receives the structured results
record (with `total_operations` counting the enabled operations) rather than
a propagated exception. -/
theorem consolidated_data_population_boundary (env : SessionEnv)
    (ers erc mg : Bool) :
    (env.openSession = .ok () →
      (consolidated_data_population env ers erc mg).2 =
        OpTag.dataPopulation ::
          ((if ers then [OpTag.resourceSetup] else []) ++
            (if erc && mg then [OpTag.rateCard] else []))) ∧
    (∀ e, env.openSession = .ok () → env.dataPop = .error e →
      ("Data population failed: " ++ e) ∈
        (consolidated_data_population env ers erc mg).1.errors) ∧
    (∀ e, env.openSession = .ok () → ers = true →
      env.resourceSetup = .error e →
      ("Resource setup failed: " ++ e) ∈
        (consolidated_data_population env ers erc mg).1.errors) ∧
    (∀ e, env.openSession = .ok () → erc = true → mg = true →
      env.rateCard = .error e →
      ("Rate card calculation failed: " ++ e) ∈
        (consolidated_data_population env ers erc mg).1.errors) ∧
    (consolidated_data_population env ers erc mg).1.total_operations =
      1 + (if ers then 1 else 0) + (if erc && mg then 1 else 0) := by
  obtain ⟨o, d, rs, rc, sv⟩ := env
  refine ⟨?_, ?_, ?_, ?_, ?_⟩
  · intro hO
    simp only at hO
    subst hO
    rfl
  · intro e hO hD
    simp only at hO hD
    subst hO
    subst hD
    rcases sv with se | su <;>
      simp only [consolidated_data_population, opStep] <;> (repeat' split) <;> simp_all
  · intro e hO hers hRS
    simp only at hO hRS
    subst hO
    subst hRS
    subst hers
    rcases sv with se | su <;>
      simp only [consolidated_data_population, opStep] <;> (repeat' split) <;> simp_all
  · intro e hO herc hmg hRC
    simp only at hO hRC
    subst hO
    subst hRC
    subst herc
    subst hmg
    rcases sv with se | su <;>
      simp only [consolidated_data_population, opStep] <;> (repeat' split) <;> simp_all
  · rcases o with oe | ou
    · rfl
    · rfl

/-- Witness for C4: a run where resource setup raises `"boom"` but data
population and rate card succeed — the body still performs all three calls
in order, and the resource-setup error is recorded. -/
theorem consolidated_data_population_boundary_witness :
    (consolidated_data_population
      (SessionEnv.mk (.ok ()) (.ok (OpResult.mk true)) (.error "boom")
        (.ok (OpResult.mk true)) (.ok ())) true true true).2 =
      [OpTag.dataPopulation, OpTag.resourceSetup, OpTag.rateCard] ∧
    ("Resource setup failed: " ++ "boom") ∈
      (consolidated_data_population
        (SessionEnv.mk (.ok ()) (.ok (OpResult.mk true)) (.error "boom")
          (.ok (OpResult.mk true)) (.ok ())) true true true).1.errors :=
  ⟨by
    simpa using (consolidated_data_population_boundary
      (SessionEnv.mk (.ok ()) (.ok (OpResult.mk true)) (.error "boom")
        (.ok (OpResult.mk true)) (.ok ())) true true true).1 rfl,
   (consolidated_data_population_boundary
      (SessionEnv.mk (.ok ()) (.ok (OpResult.mk true)) (.error "boom")
        (.ok (OpResult.mk true)) (.ok ())) true true true).2.2.1 "boom"
     rfl rfl rfl⟩

/-! ## Resource setup block copy (resource_setup_populator.py)

The worksheet layer is modelled as a total cell grid: `range(...).value` on a
multi-cell range returns the row-major grid of cell values (a `list` of row
`list`s), and `used_range.last_cell.row` is the `lastRow` field.  Range
strings such as `"C28:H34"` are in bijection with their
`(col1, row1, col2, row2)` coordinates in the single-letter-column regime the
module uses, so ranges are carried as coordinates and rendered by
`rangeStr`. -/

/-- Python truthiness of a cell value: `None`, `0.0` and `""` are falsy. -/
def cellTruthy : CellV → Bool
  | .vNone => false
  | .vNum q => !(decide (q = 0))
  | .vStr s => !s.isEmpty

/-- `str(cell)` for cell values.  The copy routine only reads text and blank
cells; a numeric cell is rendered as Python renders integral floats
(`"2.0"`), with a rational fallback for the rest — no property below depends
on the numeric rendering, since no numeric rendering equals a `"Group N"`
placeholder or contains an alphabetic resource indicator. -/
def pyStrCell : CellV → List Char
  | .vNone => "None".data
  | .vNum q =>
    if q.den = 1 then (toString q.num).data ++ ".0".data
    else (toString q.num).data ++ "/".data ++ (toString q.den).data
  | .vStr s => s

/-- One row of `_has_meaningful_resource_data` (resource_setup_populator.py,
lines 133–146): join the truthy cells with spaces, skip placeholder rows
(`"Group 1"`/`"Group 2"`/`"Group 3"`/empty after strip), and count the row
when its lower-cased join contains a resource indicator. -/
def meaningfulRow (row : List CellV) : Bool :=
  let row_str := joinSpace ((row.filter cellTruthy).map pyStrCell)
  !row_str.isEmpty &&
    !(["Group 1".data, "Group 2".data, "Group 3".data,
        ([] : List Char)].contains (pyStrip row_str)) &&
    (["deloitte".data, "consultant".data, "manager".data, "director".data,
        "tech".data, "transformation".data].any
      (fun ind => strContainsSub (row_str.map pyLowerChar) ind))

/-- `_has_meaningful_resource_data` (resource_setup_populator.py, lines
120–149): at least two rows of the grid must look like real resource data. -/
def has_meaningful_resource_data (data : List (List CellV)) : Bool :=
  if data.isEmpty then false
  else decide (2 ≤ data.countP meaningfulRow)

/-- A rectangular range `(col1, row1, col2, row2)` — the coordinates of a
range string like `"C28:H34"`. -/
structure RangeSpec where
  c1 : ℤ
  r1 : ℤ
  c2 : ℤ
  r2 : ℤ
deriving DecidableEq, Repr

/-- The range string `f"{col1}{row1}:{col2}{row2}"` of a coordinate range. -/
def rangeStr (rg : RangeSpec) : List Char :=
  colLetter rg.c1 :: (toString rg.r1).data ++
    ':' :: colLetter rg.c2 :: (toString rg.r2).data

/-- A worksheet: a total grid of cell values plus the last used row
(`used_range.last_cell.row`). -/
structure Worksheet where
  cells : ℤ → ℤ → CellV
  lastRow : ℤ

/-- Python `range(a, b)` over integers. -/
def intRange (a b : ℤ) : List ℤ :=
  (List.range (b - a).toNat).map (fun i => a + Int.ofNat i)

/-- `worksheet.range("C28:H34").value`: the row-major grid of the range. -/
def readRange (ws : Worksheet) (rg : RangeSpec) : List (List CellV) :=
  (intRange rg.r1 (rg.r2 + 1)).map (fun r =>
    (intRange rg.c1 (rg.c2 + 1)).map (fun c => ws.cells r c))

/-- `_comprehensive_resource_search` (resource_setup_populator.py, lines
152–184): scan rows `1 ..< min(min(lastRow, 50) - expected_rows + 2, 20)`
and start columns `A`/`B`/`C` (six columns wide) for the first meaningful
grid. -/
def comprehensive_resource_search (source_worksheet : Worksheet)
    (expected_rows : ℤ) : Option RangeSpec :=
  let max_row := min source_worksheet.lastRow 50
  let cands := (intRange 1 (min (max_row - expected_rows + 2) 20)).map
    (fun r => ([1, 2, 3] : List ℤ).map
      (fun c => RangeSpec.mk c r (c + 5) (r + expected_rows - 1)))
  cands.join.find? (fun rg =>
    has_meaningful_resource_data (readRange source_worksheet rg))

/-- `find_source_resource_data` (resource_setup_populator.py, lines 72–118):
probe the six hard-coded candidate ranges (`C28:H34` first) for a non-empty
grid with meaningful data, falling back to the comprehensive search. -/
def find_source_resource_data (source_worksheet : Worksheet)
    (expected_rows : ℤ) : Option RangeSpec :=
  let test_ranges : List RangeSpec :=
    [RangeSpec.mk 3 28 8 (27 + expected_rows),
     RangeSpec.mk 3 25 8 (24 + expected_rows),
     RangeSpec.mk 3 30 8 (29 + expected_rows),
     RangeSpec.mk 2 28 8 (27 + expected_rows),
     RangeSpec.mk 4 28 9 (27 + expected_rows),
     RangeSpec.mk 1 28 8 (27 + expected_rows)]
  match test_ranges.find? (fun rg =>
      let data := readRange source_worksheet rg
      !data.isEmpty && has_meaningful_resource_data data) with
  | some rg => some rg
  | none => comprehensive_resource_search source_worksheet expected_rows

/-- One row of `_is_suitable_target_area` (resource_setup_populator.py, lines
249–280): a row counts as empty-or-placeholder when its stripped join of
truthy cells is empty, is a `"Group N"` placeholder, or every cell is
falsy. -/
def suitableRow (row : List CellV) : Bool :=
  let row_content := pyStrip (joinSpace ((row.filter cellTruthy).map pyStrCell))
  row_content.isEmpty ||
    (["Group 1".data, "Group 2".data, "Group 3".data]).contains row_content ||
    row.all (fun c => !cellTruthy c)

/-- `_is_suitable_target_area`: an empty grid is suitable; otherwise at least
`80%` of the rows must be empty or placeholder (`count/total >= 0.8`,
expressed exactly as `4*total <= 5*count`; the float comparison cannot
deviate from the exact one at the row counts involved). -/
def is_suitable_target_area (data : List (List CellV)) : Bool :=
  if data.isEmpty then true
  else decide (4 * data.length ≤ 5 * data.countP suitableRow)

/-- `_find_any_empty_area` (resource_setup_populator.py, lines 283–306):
fallback scan of rows `20, 25, ..., 100` and start columns `B`/`C` (to `H`)
for the first suitable area. -/
def find_any_empty_area (target_worksheet : Worksheet)
    (required_rows : ℤ) : Option RangeSpec :=
  let cands := ((List.range 17).map (fun i => 20 + 5 * Int.ofNat i)).map
    (fun r => ([2, 3] : List ℤ).map
      (fun c => RangeSpec.mk c r 8 (r + required_rows - 1)))
  cands.join.find? (fun rg =>
    is_suitable_target_area (readRange target_worksheet rg))

/-- `find_target_editable_area` (resource_setup_populator.py, lines 187–246):
probe rows `28, 25, 30, 20, 35` with column spans `B–H`, `C–H`, `A–H` for the
first suitable area, falling back to `find_any_empty_area`. -/
def find_target_editable_area (target_worksheet : Worksheet)
    (required_rows : ℤ) : Option RangeSpec :=
  let cands := ([28, 25, 30, 20, 35] : List ℤ).map
    (fun r => ([(2, 8), (3, 8), (1, 8)] : List (ℤ × ℤ)).map
      (fun p => RangeSpec.mk p.1 r p.2 (r + required_rows - 1)))
  match cands.join.find? (fun rg =>
      is_suitable_target_area (readRange target_worksheet rg)) with
  | some rg => some rg
  | none => find_any_empty_area target_worksheet required_rows

/-- `ResourceCopyResult` (resource_setup_populator.py, lines 34–45), without
the timing field. -/
structure ResourceCopyResult where
  cells_copied : ℕ
  source_range : List Char
  target_range : List Char
  success : Bool
  error_messages : List (List Char)
deriving DecidableEq, Repr

/-- `copy_resource_setup_range` (resource_setup_populator.py, lines 312–432)
for the worksheet name `"Resource Setup"`.  The two `Except` arguments are
the outcomes of opening and resolving the source and target worksheets, and
`writeSave` is the outcome of the two stateful operations that follow
discovery: the range write `target_ws.range(target_range).value = source_data`
(line 381) and `target_wb.save()` (line 390).  A failure in any of these is a
generic exception, caught by the trailing `except Exception` (lines 419–432)
into the soft zero-cell `ResourceCopyResult` — also after a fully successful
discovery.  A discovery failure raises `ResourceSetupError`, which
`except ResourceSetupError: raise` re-raises past the function boundary —
modelled as `.error`. -/
def copy_resource_setup_range
    (openSource openTarget : Except (List Char) Worksheet)
    (writeSave : RangeSpec → List (List CellV) → Except (List Char) Unit)
    (resource_row_count : ℤ) : Except (List Char) ResourceCopyResult :=
  match openSource with
  | .error e => .ok (ResourceCopyResult.mk 0 [] [] false
      ["Unexpected error during resource setup copy: ".data ++ e])
  | .ok source_ws =>
    match openTarget with
    | .error e => .ok (ResourceCopyResult.mk 0 [] [] false
        ["Unexpected error during resource setup copy: ".data ++ e])
    | .ok target_ws =>
      match find_source_resource_data source_ws resource_row_count with
      | none => .error "No resource data found in source Resource Setup worksheet".data
      | some source_range =>
        match find_target_editable_area target_ws resource_row_count with
        | none => .error "No suitable editable area found in target Resource Setup worksheet".data
        | some target_range =>
          match readRange source_ws source_range with
          | [] => .error ("Source range ".data ++ rangeStr source_range ++
              " contains no data".data)
          | row0 :: rest =>
            match writeSave target_range (row0 :: rest) with
            | .error e => .ok (ResourceCopyResult.mk 0 [] [] false
                ["Unexpected error during resource setup copy: ".data ++ e])
            | .ok _ => .ok (ResourceCopyResult.mk
                ((1 + rest.length) * row0.length)
                (rangeStr source_range) (rangeStr target_range) true [])

/-- A worksheet with every cell blank (one used row). -/
def wsBlank : Worksheet := Worksheet.mk (fun _ _ => CellV.vNone) 1

/-- A worksheet whose column `C`, rows `28`–`34`, holds resource text. -/
def wsMeaningful : Worksheet :=
  Worksheet.mk (fun r c =>
    if c = 3 ∧ 28 ≤ r ∧ r ≤ 34 then CellV.vStr "Deloitte Consultant".data
    else CellV.vNone) 34

/-- The row `C..H` of `wsMeaningful` in its resource block. -/
def mRow : List CellV :=
  [CellV.vStr "Deloitte Consultant".data, CellV.vNone, CellV.vNone,
   CellV.vNone, CellV.vNone, CellV.vNone]

/-- C3 (amended): the failure boundary of `copy_resource_setup_range`.  A
generic exception — while opening either worksheet, or in the post-discovery
range write / `target_wb.save()` — is caught by the trailing
`except Exception` handler and yields the soft result (`cells_copied = 0`,
`success = False`, reason recorded in `error_messages`), even after a fully
successful discovery.  A *discovery* failure, however, is NOT soft: when no
meaningful source block or no suitable target area is found the function
raises `ResourceSetupError`, and `except ResourceSetupError: raise` re-raises
it past the function boundary (see the counterexample).  Only when discovery
succeeds on a non-empty source grid *and* the write and save complete does
the result report `rows*cols` cells copied with `success = True`. -/
theorem copy_resource_setup_range_boundary
    (openSource openTarget : Except (List Char) Worksheet)
    (writeSave : RangeSpec → List (List CellV) → Except (List Char) Unit)
    (n : ℤ) :
    (∀ e, openSource = .error e →
      copy_resource_setup_range openSource openTarget writeSave n =
        .ok (ResourceCopyResult.mk 0 [] [] false
          ["Unexpected error during resource setup copy: ".data ++ e])) ∧
    (∀ sws e, openSource = .ok sws → openTarget = .error e →
      copy_resource_setup_range openSource openTarget writeSave n =
        .ok (ResourceCopyResult.mk 0 [] [] false
          ["Unexpected error during resource setup copy: ".data ++ e])) ∧
    (∀ sws tws, openSource = .ok sws → openTarget = .ok tws →
      find_source_resource_data sws n = none →
      copy_resource_setup_range openSource openTarget writeSave n =
        .error "No resource data found in source Resource Setup worksheet".data) ∧
    (∀ sws tws srg, openSource = .ok sws → openTarget = .ok tws →
      find_source_resource_data sws n = some srg →
      find_target_editable_area tws n = none →
      copy_resource_setup_range openSource openTarget writeSave n =
        .error "No suitable editable area found in target Resource Setup worksheet".data) ∧
    (∀ sws tws srg trg row0 rest e, openSource = .ok sws → openTarget = .ok tws →
      find_source_resource_data sws n = some srg →
      find_target_editable_area tws n = some trg →
      readRange sws srg = row0 :: rest →
      writeSave trg (row0 :: rest) = .error e →
      copy_resource_setup_range openSource openTarget writeSave n =
        .ok (ResourceCopyResult.mk 0 [] [] false
          ["Unexpected error during resource setup copy: ".data ++ e])) ∧
    (∀ sws tws srg trg row0 rest, openSource = .ok sws → openTarget = .ok tws →
      find_source_resource_data sws n = some srg →
      find_target_editable_area tws n = some trg →
      readRange sws srg = row0 :: rest →
      writeSave trg (row0 :: rest) = .ok () →
      copy_resource_setup_range openSource openTarget writeSave n =
        .ok (ResourceCopyResult.mk ((1 + rest.length) * row0.length)
          (rangeStr srg) (rangeStr trg) true [])) := by
  refine ⟨?_, ?_, ?_, ?_, ?_, ?_⟩
  · intro e hS
    subst hS
    rfl
  · intro sws e hS hT
    subst hS
    subst hT
    rfl
  · intro sws tws hS hT hfind
    subst hS
    subst hT
    simp only [copy_resource_setup_range, hfind]
  · intro sws tws srg hS hT hfind htgt
    subst hS
    subst hT
    simp only [copy_resource_setup_range, hfind, htgt]
  · intro sws tws srg trg row0 rest e hS hT hfind htgt hread hws
    subst hS
    subst hT
    simp only [copy_resource_setup_range, hfind, htgt, hread, hws]
  · intro sws tws srg trg row0 rest hS hT hfind htgt hread hws
    subst hS
    subst hT
    simp only [copy_resource_setup_range, hfind, htgt, hread, hws]

/-- C3 counterexample: with both worksheets opening fine but the source
entirely blank, discovery fails and `copy_resource_setup_range` raises
(`ResourceSetupError` escapes as `.error`): there is no soft
`ResourceCopyResult` for the caller, contrary to the claim. -/
theorem copy_resource_setup_range_discovery_counterexample :
    copy_resource_setup_range (.ok wsBlank) (.ok wsBlank) (fun _ _ => .ok ()) 7 =
      .error "No resource data found in source Resource Setup worksheet".data ∧
    ∀ r : ResourceCopyResult,
      copy_resource_setup_range (.ok wsBlank) (.ok wsBlank) (fun _ _ => .ok ()) 7 ≠ .ok r := by
  have h0 : copy_resource_setup_range (.ok wsBlank) (.ok wsBlank) (fun _ _ => .ok ()) 7 =
      .error "No resource data found in source Resource Setup worksheet".data := by
    rfl
  refine ⟨h0, fun r h => ?_⟩
  rw [h0] at h
  exact Except.noConfusion h

/-- Witness for C3: the theorem applied to a failed source open (soft result
with the reason recorded), to a copy whose post-discovery save raises (soft
zero-cell result despite successful discovery), and to a fully successful
copy of the meaningful block `C28:H34` onto the blank target area `B28:H34`
(42 cells). -/
theorem copy_resource_setup_range_boundary_witness :
    copy_resource_setup_range (.error "open failed".data) (.ok wsBlank)
      (fun _ _ => .ok ()) 7 =
      .ok (ResourceCopyResult.mk 0 [] [] false
        ["Unexpected error during resource setup copy: ".data ++
          "open failed".data]) ∧
    copy_resource_setup_range (.ok wsMeaningful) (.ok wsBlank)
      (fun _ _ => .error "save failed".data) 7 =
      .ok (ResourceCopyResult.mk 0 [] [] false
        ["Unexpected error during resource setup copy: ".data ++
          "save failed".data]) ∧
    copy_resource_setup_range (.ok wsMeaningful) (.ok wsBlank)
      (fun _ _ => .ok ()) 7 =
      .ok (ResourceCopyResult.mk
        ((1 + ([mRow, mRow, mRow, mRow, mRow, mRow] : List (List CellV)).length)
          * mRow.length)
        (rangeStr (RangeSpec.mk 3 28 8 34)) (rangeStr (RangeSpec.mk 2 28 8 34))
        true []) :=
  ⟨(copy_resource_setup_range_boundary (.error "open failed".data)
      (.ok wsBlank) (fun _ _ => .ok ()) 7).1 "open failed".data rfl,
   (copy_resource_setup_range_boundary (.ok wsMeaningful) (.ok wsBlank)
      (fun _ _ => .error "save failed".data) 7).2.2.2.2.1 wsMeaningful wsBlank
     (RangeSpec.mk 3 28 8 34) (RangeSpec.mk 2 28 8 34) mRow
     [mRow, mRow, mRow, mRow, mRow, mRow] "save failed".data
     rfl rfl (by rfl) (by rfl) (by rfl) rfl,
   (copy_resource_setup_range_boundary (.ok wsMeaningful) (.ok wsBlank)
      (fun _ _ => .ok ()) 7).2.2.2.2.2 wsMeaningful wsBlank
     (RangeSpec.mk 3 28 8 34) (RangeSpec.mk 2 28 8 34) mRow
     [mRow, mRow, mRow, mRow, mRow, mRow]
     rfl rfl (by rfl) (by rfl) (by rfl) rfl⟩

/-! ## Canonical form of `normalize_field_name` outputs -/

theorem char_le_toNat {a b : Char} (h : a ≤ b) : a.toNat ≤ b.toNat := h

theorem char_toNat_ofNat_lt {n : ℕ} (h : n < 55296) :
    (Char.ofNat n).toNat = n := by
  rw [Char.ofNat, dif_pos (Or.inl h)]
  rfl

theorem pyLowerChar_idem (c : Char) :
    pyLowerChar (pyLowerChar c) = pyLowerChar c := by
  by_cases h : 'A' ≤ c ∧ c ≤ 'Z'
  · have h1 : pyLowerChar c = Char.ofNat (c.toNat + 32) := by
      rw [pyLowerChar, if_pos h]
    have hub : c.toNat ≤ 90 := (char_le_toNat h.2).trans_eq rfl
    have hlb : 65 ≤ c.toNat := le_of_eq_of_le rfl (char_le_toNat h.1)
    have htn : (Char.ofNat (c.toNat + 32)).toNat = c.toNat + 32 :=
      char_toNat_ofNat_lt (by omega)
    have hne : ¬ ('A' ≤ Char.ofNat (c.toNat + 32) ∧
        Char.ofNat (c.toNat + 32) ≤ 'Z') := by
      rintro ⟨-, h2⟩
      have h3 := char_le_toNat h2
      rw [htn] at h3
      have h90 : ('Z').toNat = 90 := rfl
      rw [h90] at h3
      omega
    rw [h1, pyLowerChar, if_neg hne]
  · have h1 : pyLowerChar c = c := by rw [pyLowerChar, if_neg h]
    rw [h1, h1]

theorem mem_pyStrip {c : Char} {s : List Char} (h : c ∈ pyStrip s) : c ∈ s := by
  have h1 : c ∈ pyStripL s :=
    (List.rdropWhile_prefix isPySpace (pyStripL s)).sublist.subset h
  exact (List.dropWhile_suffix isPySpace).sublist.subset h1

theorem pyStrip_idem (s : List Char) : pyStrip (pyStrip s) = pyStrip s := by
  have key : ∀ t : List Char, t.dropWhile isPySpace = t →
      (t.rdropWhile isPySpace).dropWhile isPySpace = t.rdropWhile isPySpace := by
    intro t h0
    rcases hr : t.rdropWhile isPySpace with - | ⟨c, rest⟩
    · rfl
    · obtain ⟨u, hu⟩ := List.rdropWhile_prefix isPySpace t
      rw [hr] at hu
      subst hu
      have hlen : 0 < ((c :: rest) ++ u).length := by simp
      have hnp := List.dropWhile_eq_self_iff.mp h0 hlen
      simp only [List.cons_append, List.get_eq_getElem,
        List.getElem_cons_zero] at hnp
      rw [List.dropWhile_cons, if_neg hnp]
  have h2 := key (s.dropWhile isPySpace) (List.dropWhile_idempotent _ _)
  show (((s.dropWhile isPySpace).rdropWhile isPySpace).dropWhile
      isPySpace).rdropWhile isPySpace = (s.dropWhile isPySpace).rdropWhile isPySpace
  rw [h2, List.rdropWhile_idempotent]

theorem mem_stripLetterEnum {c : Char} {s : List Char}
    (h : c ∈ stripLetterEnum s) : c ∈ s := by
  rw [stripLetterEnum.eq_def] at h
  split at h
  · split at h
    · exact List.mem_cons_of_mem _ (List.mem_cons_of_mem _ (mem_pyStrip h))
    · exact h
  · exact h

theorem mem_dropLeadingEnum {c : Char} {s : List Char}
    (h : c ∈ dropLeadingEnum s) : c ∈ s := by
  rw [dropLeadingEnum.eq_def] at h
  split at h
  · exact h
  · split at h
    · exact (List.dropWhile_suffix isAsciiDigit).sublist.subset
        ((List.dropWhile_suffix isEnumTail).sublist.subset h)
    · exact h

/-- No two adjacent whitespace characters (the shape `re.sub(r'\s+', ' ', ·)`
guarantees, together with every whitespace character being `' '`). -/
def collapsed : List Char → Bool
  | [] => true
  | [_] => true
  | c :: d :: rest => (!(isPySpace c && isPySpace d)) && collapsed (d :: rest)

theorem collapsed_of_cons {c : Char} {t : List Char}
    (h : collapsed (c :: t) = true) : collapsed t = true := by
  cases t with
  | nil => rfl
  | cons d r =>
    rw [collapsed, Bool.and_eq_true] at h
    exact h.2

theorem collapsed_cons_of_head {c : Char} {t : List Char}
    (hc : isPySpace c = false) (ht : collapsed t = true) :
    collapsed (c :: t) = true := by
  cases t with
  | nil => rfl
  | cons d r =>
    rw [collapsed]
    simp [hc, ht]

theorem collapseWs_cons_of_not_space {d : Char} (rest : List Char)
    (h : isPySpace d = false) : ∃ t, collapseWs (d :: rest) = d :: t := by
  cases rest with
  | nil => exact ⟨[], by simp [collapseWs, h]⟩
  | cons e r => exact ⟨collapseWs (e :: r), by rw [collapseWs]; simp [h]⟩

theorem collapsed_collapseWs (s : List Char) :
    collapsed (collapseWs s) = true := by
  induction s with
  | nil => rfl
  | cons c t IH =>
    cases t with
    | nil =>
      rw [collapseWs]
      split <;> rfl
    | cons d r =>
      rw [collapseWs]
      by_cases hc : isPySpace c = true
      · rw [if_pos hc]
        by_cases hd : isPySpace d = true
        · rw [if_pos hd]
          exact IH
        · rw [if_neg hd]
          have hd' : isPySpace d = false := by simpa using hd
          obtain ⟨t', ht'⟩ := collapseWs_cons_of_not_space r hd'
          rw [ht']
          rw [collapsed]
          have hcc : collapsed (d :: t') = true := ht' ▸ IH
          simp [hd', hcc]
      · rw [if_neg hc]
        exact collapsed_cons_of_head (by simpa using hc) IH

theorem mem_collapseWs {c : Char} {s : List Char}
    (h : c ∈ collapseWs s) : c = ' ' ∨ c ∈ s := by
  induction s with
  | nil => exact absurd h (List.not_mem_nil c)
  | cons a t IH =>
    cases t with
    | nil =>
      rw [collapseWs] at h
      by_cases ha : isPySpace a = true
      · rw [if_pos ha] at h
        exact Or.inl (List.mem_singleton.mp h)
      · rw [if_neg ha] at h
        exact Or.inr h
    | cons d r =>
      rw [collapseWs] at h
      by_cases ha : isPySpace a = true
      · rw [if_pos ha] at h
        by_cases hd : isPySpace d = true
        · rw [if_pos hd] at h
          rcases IH h with h' | h'
          · exact Or.inl h'
          · exact Or.inr (List.mem_cons_of_mem _ h')
        · rw [if_neg hd] at h
          rcases List.mem_cons.mp h with rfl | h'
          · exact Or.inl rfl
          · rcases IH h' with h'' | h''
            · exact Or.inl h''
            · exact Or.inr (List.mem_cons_of_mem _ h'')
      · rw [if_neg ha] at h
        rcases List.mem_cons.mp h with rfl | h'
        · exact Or.inr (List.mem_cons_self _ _)
        · rcases IH h' with h'' | h''
          · exact Or.inl h''
          · exact Or.inr (List.mem_cons_of_mem _ h'')

theorem space_mem_collapseWs {c : Char} {s : List Char}
    (h : c ∈ collapseWs s) (hsp : isPySpace c = true) : c = ' ' := by
  induction s with
  | nil => exact absurd h (List.not_mem_nil c)
  | cons a t IH =>
    cases t with
    | nil =>
      rw [collapseWs] at h
      by_cases ha : isPySpace a = true
      · rw [if_pos ha] at h
        exact List.mem_singleton.mp h
      · rw [if_neg ha] at h
        rcases List.mem_singleton.mp h with rfl
        exact absurd hsp (by simpa using ha)
    | cons d r =>
      rw [collapseWs] at h
      by_cases ha : isPySpace a = true
      · rw [if_pos ha] at h
        by_cases hd : isPySpace d = true
        · rw [if_pos hd] at h
          exact IH h
        · rw [if_neg hd] at h
          rcases List.mem_cons.mp h with rfl | h'
          · rfl
          · exact IH h'
      · rw [if_neg ha] at h
        rcases List.mem_cons.mp h with rfl | h'
        · exact absurd hsp (by simpa using ha)
        · exact IH h'

theorem collapsed_append_left : ∀ s u : List Char,
    collapsed (s ++ u) = true → collapsed s = true := by
  intro s
  induction s with
  | nil => intro u _; rfl
  | cons a t IH =>
    intro u h
    cases t with
    | nil => rfl
    | cons d r =>
      rw [List.cons_append, List.cons_append, collapsed, Bool.and_eq_true] at h
      obtain ⟨h1, h2⟩ := h
      rw [collapsed, Bool.and_eq_true]
      exact ⟨h1, IH u (by rw [List.cons_append]; exact h2)⟩

theorem collapsed_dropWhile (p : Char → Bool) : ∀ s : List Char,
    collapsed s = true → collapsed (s.dropWhile p) = true := by
  intro s
  induction s with
  | nil => exact fun h => h
  | cons a t IH =>
    intro h
    rw [List.dropWhile_cons]
    split
    · exact IH (collapsed_of_cons h)
    · exact h

theorem collapsed_pyStrip {s : List Char} (h : collapsed s = true) :
    collapsed (pyStrip s) = true := by
  have h1 : collapsed (pyStripL s) = true := collapsed_dropWhile _ _ h
  obtain ⟨u, hu⟩ := List.rdropWhile_prefix isPySpace (pyStripL s)
  exact collapsed_append_left ((pyStripL s).rdropWhile isPySpace) u
    (by rw [hu]; exact h1)

theorem collapseWs_eq_self : ∀ s : List Char,
    (∀ c ∈ s, isPySpace c = true → c = ' ') → collapsed s = true →
    collapseWs s = s := by
  intro s
  induction s with
  | nil => intro _ _; rfl
  | cons a t IH =>
    intro h1 h2
    cases t with
    | nil =>
      rw [collapseWs]
      by_cases ha : isPySpace a = true
      · rw [if_pos ha, h1 a (List.mem_cons_self _ _) ha]
      · rw [if_neg ha]
    | cons d r =>
      have IH' := IH (fun c hc hs => h1 c (List.mem_cons_of_mem _ hc) hs)
        (collapsed_of_cons h2)
      rw [collapseWs]
      by_cases ha : isPySpace a = true
      · rw [if_pos ha]
        have had : isPySpace d = false := by
          rw [collapsed, Bool.and_eq_true] at h2
          obtain ⟨hh, -⟩ := h2
          simp [ha] at hh
          exact hh
        rw [if_neg (by simp [had]), IH', h1 a (List.mem_cons_self _ _) ha]
      · rw [if_neg ha, IH']

theorem mem_normalize_field_name {c : Char} {x : List Char}
    (h : c ∈ normalize_field_name x) :
    pyLowerChar c = c ∧ (c != '*') = true := by
  by_cases hx : x.isEmpty = true
  · rw [normalize_field_name, if_pos hx] at h
    exact absurd h (List.not_mem_nil c)
  · simp only [normalize_field_name] at h
    rw [if_neg hx] at h
    have h1 := mem_pyStrip h
    rcases mem_collapseWs h1 with rfl | h2
    · exact ⟨by decide, by decide⟩
    · have h3 := mem_stripLetterEnum h2
      have h4 := mem_dropLeadingEnum h3
      have h5 := (List.dropWhile_suffix isPunct).sublist.subset h4
      have h6 := (List.rdropWhile_prefix isPunct _).sublist.subset h5
      have h7 := List.of_mem_filter h6
      have h8 := List.mem_of_mem_filter h6
      have h9 := mem_pyStrip h8
      obtain ⟨a, -, rfl⟩ := List.mem_map.mp h9
      exact ⟨pyLowerChar_idem a, h7⟩

theorem normalize_space_canonical (x : List Char) :
    (∀ c ∈ normalize_field_name x, isPySpace c = true → c = ' ') ∧
    collapsed (normalize_field_name x) = true ∧
    pyStrip (normalize_field_name x) = normalize_field_name x := by
  by_cases hx : x.isEmpty = true
  · rw [normalize_field_name, if_pos hx]
    exact ⟨fun c hc => absurd hc (List.not_mem_nil c), rfl, rfl⟩
  · simp only [normalize_field_name]
    rw [if_neg hx]
    refine ⟨?_, ?_, ?_⟩
    · intro c hc hsp
      exact space_mem_collapseWs (mem_pyStrip hc) hsp
    · exact collapsed_pyStrip (collapsed_collapseWs _)
    · exact pyStrip_idem _

set_option maxRecDepth 40000 in
/-- C5 counterexample: `normalize_field_name` is not idempotent.  The input
`"a.a.b"` normalizes to `"a.b"` (the letter-enumerator prefix `'a.'` is
stripped only once), and a second pass strips the now-exposed prefix again,
yielding `"b"`. -/
theorem normalize_field_name_not_idempotent :
    normalize_field_name "a.a.b".data = "a.b".data ∧
    normalize_field_name (normalize_field_name "a.a.b".data) = "b".data ∧
    normalize_field_name (normalize_field_name "a.a.b".data) ≠
      normalize_field_name "a.a.b".data := by
  refine ⟨by decide, by decide, by decide⟩

/-- C5 (amended): `normalize_field_name` is idempotent exactly on the inputs
whose normalized form is inert under the enumerator- and punctuation-removal
steps: if the output neither ends nor begins with punctuation-class
characters, does not begin with a digit, and does not carry a letter-enum
prefix `'a.'`–`'j.'`, then a second normalization returns it unchanged.  The
remaining pipeline steps never need such a hypothesis: a normalized string
is always lower-case-stable and `'*'`-free with collapsed, stripped
whitespace, so lower-casing, stripping, `'*'`-removal and whitespace
collapsing are inert on every output. -/
theorem normalize_field_name_conditional_idempotent (x : List Char)
    (h3 : (normalize_field_name x).rdropWhile isPunct = normalize_field_name x)
    (h4 : (normalize_field_name x).dropWhile isPunct = normalize_field_name x)
    (h5 : dropLeadingEnum (normalize_field_name x) = normalize_field_name x)
    (h6 : stripLetterEnum (normalize_field_name x) = normalize_field_name x) :
    normalize_field_name (normalize_field_name x) = normalize_field_name x := by
  obtain ⟨hsp, hcol, hstrip⟩ := normalize_space_canonical x
  have hmap : (normalize_field_name x).map pyLowerChar = normalize_field_name x := by
    have hch : ∀ a ∈ normalize_field_name x, pyLowerChar a = id a :=
      fun a ha => (mem_normalize_field_name ha).1
    rw [List.map_congr_left hch, List.map_id]
  have hfilter : (normalize_field_name x).filter (fun c => c != '*') =
      normalize_field_name x :=
    List.filter_eq_self.mpr (fun a ha => (mem_normalize_field_name ha).2)
  have hcws : collapseWs (normalize_field_name x) = normalize_field_name x :=
    collapseWs_eq_self _ hsp hcol
  by_cases hy : (normalize_field_name x).isEmpty = true
  · have hnil : normalize_field_name x = [] := List.isEmpty_iff.mp hy
    rw [hnil]
    rfl
  · generalize hg : normalize_field_name x = y at h3 h4 h5 h6 hsp hcol hstrip hmap hfilter hcws hy ⊢
    simp only [normalize_field_name]
    rw [if_neg hy, hmap, hstrip, hfilter, h3, h4, h5, h6, hcws, hstrip]

set_option maxRecDepth 40000 in
/-- Witness for C5: the theorem applied at `"01. Opportunity ID:"`, whose
normalized form `"opportunity id"` satisfies all four inertness hypotheses. -/
theorem normalize_field_name_conditional_idempotent_witness :
    ((normalize_field_name "01. Opportunity ID:".data).rdropWhile isPunct =
      normalize_field_name "01. Opportunity ID:".data) ∧
    ((normalize_field_name "01. Opportunity ID:".data).dropWhile isPunct =
      normalize_field_name "01. Opportunity ID:".data) ∧
    (dropLeadingEnum (normalize_field_name "01. Opportunity ID:".data) =
      normalize_field_name "01. Opportunity ID:".data) ∧
    (stripLetterEnum (normalize_field_name "01. Opportunity ID:".data) =
      normalize_field_name "01. Opportunity ID:".data) ∧
    normalize_field_name (normalize_field_name "01. Opportunity ID:".data) =
      normalize_field_name "01. Opportunity ID:".data :=
  ⟨by decide, by decide, by decide, by decide,
   normalize_field_name_conditional_idempotent "01. Opportunity ID:".data
     (by decide) (by decide) (by decide) (by decide)⟩

end DTT
